import Mathlib

/-!
A shallow embedding of `codex-cli/scripts/install_native_deps.py`.

The filesystem is modelled as an association list from paths (lists of
components) to files; file contents are modelled structurally so that the
three archive formats handled by `extract_archive` (zstd single stream,
gzipped tar, zip) can be embedded without modelling raw compression.
Network downloads are an association list from URLs to the content served;
the external `zstd`, `dotslash` and `gh` processes are modelled at their
observable interface (decompression result, parsed manifest, staged
artifact directory).  Thread-pool execution is modelled by running every
submitted task (the pool never cancels submitted work) and consuming the
per-task outcomes in an arbitrary completion order, as
`concurrent.futures.as_completed` does.
-/

set_option autoImplicit false

namespace InstallNativeDeps

/-- A filesystem path, as a list of components. -/
abbrev FPath := List String

/-- Association-list lookup (first match wins, like a Python dict built
without duplicate keys). -/
def alookup {α β : Type} [DecidableEq α] : List (α × β) → α → Option β
  | [], _ => none
  | (a, b) :: rest, x => if a = x then some b else alookup rest x

/-- Association-list update: replace the binding of `a` or append it. -/
def aset {α β : Type} [DecidableEq α] : List (α × β) → α → β → List (α × β)
  | [], a, b => [(a, b)]
  | (x, y) :: rest, a, b => if x = a then (a, b) :: rest else (x, y) :: aset rest a b

/-- Association-list deletion of every binding of `a`. -/
def adel {α β : Type} [DecidableEq α] : List (α × β) → α → List (α × β)
  | [], _ => []
  | (x, y) :: rest, a => if x = a then adel rest a else (x, y) :: adel rest a

/-- Data of one zip entry.  `truncAt = some k` models a corrupt or
truncated entry: reading it delivers only the first `k` bytes before the
zip reader raises (`zipfile` detects truncation/CRC damage while
streaming); `truncAt = none` is an intact entry. -/
structure ZipData where
  data : List Nat
  truncAt : Option Nat
deriving DecidableEq, Repr

/-- Structural file contents.  `zst data ok` is a zstd stream that
decompresses to `data` when `ok` is true and makes `zstd -d` fail when
`ok` is false; `tarGz` and `zip` are archives given by their member
tables; `bytes` is a plain file. -/
inductive Content where
  | bytes (data : List Nat)
  | zst (data : List Nat) (ok : Bool)
  | tarGz (entries : List (String × List Nat))
  | zip (entries : List (String × ZipData))
deriving DecidableEq, Repr

/-- A file: contents plus an optional explicit mode.  `mode = none` means
the default creation mode (no `chmod` has been applied). -/
structure File where
  content : Content
  mode : Option Nat
deriving DecidableEq, Repr

/-- The filesystem: the set of directories (as a list, creation order)
and the regular files. -/
structure FS where
  dirs : List FPath
  files : List (FPath × File)
deriving DecidableEq, Repr

/-- The nonempty ancestor paths of a path, shortest first (for
`mkdir(parents=True)`). -/
def pathAncestors : FPath → List FPath
  | [] => []
  | x :: xs => [x] :: (pathAncestors xs).map (fun p => x :: p)

/-- Add one directory if it is not already present. -/
def addDir (ds : List FPath) (p : FPath) : List FPath :=
  if p ∈ ds then ds else ds ++ [p]

/-- `Path.mkdir(parents=True, exist_ok=True)`: create the directory and
all its ancestors, ignoring the ones that exist. -/
def FS.mkdirP (fs : FS) (p : FPath) : FS :=
  { fs with dirs := (pathAncestors p).foldl addDir fs.dirs }

/-- `open(p, "wb")` followed by a full write: create or truncate the file
at `p` with content `c`.  An existing file keeps its mode; a new file has
the default mode. -/
def setContent (files : List (FPath × File)) (p : FPath) (c : Content) :
    List (FPath × File) :=
  match alookup files p with
  | some f => aset files p ⟨c, f.mode⟩
  | none => aset files p ⟨c, none⟩

/-- `shutil.move(src, dest)` for a regular file: `dest` takes over the
moved file wholesale (content and mode), `src` disappears. -/
def moveFile (fs : FS) (src dest : FPath) : FS :=
  match alookup fs.files src with
  | some f => { fs with files := aset (adel fs.files src) dest f }
  | none => fs

/-- `p.chmod(m)`: `none` when the file is absent (Python raises). -/
def chmodFiles (files : List (FPath × File)) (p : FPath) (m : Nat) :
    Option (List (FPath × File)) :=
  match alookup files p with
  | some f => some (aset files p ⟨f.content, some m⟩)
  | none => none

/-- The errors raised by the script, one constructor per raise site (the
Python code uses `FileNotFoundError`, `ValueError`, `RuntimeError`,
`CalledProcessError` and reader exceptions; the constructor keeps the
distinguishing payload of the message). -/
inductive Err where
  | manifestNotFound
  | unsupportedTarget (t : String)
  | platformNotInManifest (k : String)
  | noProviders (k : String)
  | missingArtifact (p : FPath)
  | downloadError (url : String)
  | missingPath (fmt : String)
  | memberNotFound (m : String)
  | unsupportedFormat (fmt : String)
  | zstdFailed
  | tarOpenFailed
  | zipOpenFailed
  | badZip
  | chmodMissing
  | resultKeyError
deriving DecidableEq, Repr

instance exceptDecEq {ε α : Type} [DecidableEq ε] [DecidableEq α] :
    DecidableEq (Except ε α) := fun a b =>
  match a, b with
  | Except.ok x, Except.ok y =>
    if h : x = y then Decidable.isTrue (by rw [h])
    else Decidable.isFalse (by intro hc; injection hc; exact h (by assumption))
  | Except.error x, Except.error y =>
    if h : x = y then Decidable.isTrue (by rw [h])
    else Decidable.isFalse (by intro hc; injection hc; exact h (by assumption))
  | Except.ok _, Except.error _ => Decidable.isFalse (by intro hc; exact Except.noConfusion hc)
  | Except.error _, Except.ok _ => Decidable.isFalse (by intro hc; exact Except.noConfusion hc)

/-- The last component of a path (`Path.name`). -/
def lastComp (p : FPath) : String := (p.getLast?).getD ""

/-- `extract_archive(archive_path, archive_format, archive_member, dest)`.
Mirrors the source: the parent of `dest` is created first, then the
format is dispatched.  `zst` decompresses next to the archive and moves
the result to `dest`; `tar.gz` extracts the named member next to the
archive and moves it; `zip` streams the member directly into `dest`; any
other format tag raises.  A missing member raises before anything is
written; a corrupt zip entry leaves the partially copied bytes at
`dest`. -/
def extract_archive (fs : FS) (archive_path : FPath) (archive_format : String)
    (archive_member : Option String) (dest : FPath) : Except Err Unit × FS :=
  let fs1 := fs.mkdirP dest.dropLast
  if archive_format = "zst" then
    match alookup fs1.files archive_path with
    | some ⟨Content.zst data true, _⟩ =>
      let output_path := archive_path.dropLast ++ [lastComp dest]
      let fs2 : FS := { fs1 with files := setContent fs1.files output_path (Content.bytes data) }
      (Except.ok (), moveFile fs2 output_path dest)
    | _ => (Except.error Err.zstdFailed, fs1)
  else if archive_format = "tar.gz" then
    match archive_member with
    | none => (Except.error (Err.missingPath "tar.gz"), fs1)
    | some m =>
      if m = "" then (Except.error (Err.missingPath "tar.gz"), fs1)
      else
        match alookup fs1.files archive_path with
        | some ⟨Content.tarGz entries, _⟩ =>
          match alookup entries m with
          | none => (Except.error (Err.memberNotFound m), fs1)
          | some data =>
            let extracted := archive_path.dropLast ++ m.splitOn "/"
            let fs2 := fs1.mkdirP extracted.dropLast
            let fs3 : FS := { fs2 with files := setContent fs2.files extracted (Content.bytes data) }
            (Except.ok (), moveFile fs3 extracted dest)
        | _ => (Except.error Err.tarOpenFailed, fs1)
  else if archive_format = "zip" then
    match archive_member with
    | none => (Except.error (Err.missingPath "zip"), fs1)
    | some m =>
      if m = "" then (Except.error (Err.missingPath "zip"), fs1)
      else
        match alookup fs1.files archive_path with
        | some ⟨Content.zip entries, _⟩ =>
          match alookup entries m with
          | none => (Except.error (Err.memberNotFound m), fs1)
          | some z =>
            match z.truncAt with
            | none =>
              (Except.ok (), { fs1 with files := setContent fs1.files dest (Content.bytes z.data) })
            | some k =>
              (Except.error Err.badZip,
                { fs1 with files := setContent fs1.files dest (Content.bytes (z.data.take k)) })
        | _ => (Except.error Err.zipOpenFailed, fs1)
  else
    (Except.error (Err.unsupportedFormat archive_format), fs1)

/-- `pat` is a leading segment of `cs`. -/
def charsLead : List Char → List Char → Bool
  | [], _ => true
  | _ :: _, [] => false
  | c :: cs, d :: ds => c = d && charsLead cs ds

/-- `pat` occurs contiguously somewhere in `cs` (Python's `pat in s`). -/
def charsHave (pat : List Char) : List Char → Bool
  | [] => charsLead pat []
  | d :: ds => charsLead pat (d :: ds) || charsHave pat ds

/-- Python's `sub in s` on strings. -/
def strHas (s sub : String) : Bool := charsHave sub.toList s.toList

/-- Python's `s.startswith(sub)`. -/
def strStarts (s sub : String) : Bool := charsLead sub.toList s.toList

/-- `"windows" in target`: the Windows-class test used for codex targets. -/
def containsWindows (target : String) : Bool := strHas target "windows"

/-- `_archive_name_for_target`. -/
def _archive_name_for_target (target : String) : String :=
  if containsWindows target then "codex-" ++ target ++ ".exe.zst"
  else "codex-" ++ target ++ ".zst"

/-- Accumulate the current path segment, restarting at each slash; the
final segment is the basename. -/
def basenameAux : List Char → List Char → List Char
  | acc, [] => acc.reverse
  | acc, c :: cs => if c = '/' then basenameAux [] cs else basenameAux (c :: acc) cs

/-- `os.path.basename(urlparse(url).path)` for plain URLs without query or
fragment: the part after the last slash. -/
def urlBasename (url : String) : String := String.mk (basenameAux [] url.data)

/-- `RG_TARGET_PLATFORM_PAIRS`. -/
def RG_TARGET_PLATFORM_PAIRS : List (String × String) :=
  [("x86_64-unknown-linux-musl", "linux-x86_64"),
   ("aarch64-unknown-linux-musl", "linux-aarch64"),
   ("x86_64-apple-darwin", "macos-x86_64"),
   ("aarch64-apple-darwin", "macos-aarch64"),
   ("x86_64-pc-windows-msvc", "windows-x86_64"),
   ("aarch64-pc-windows-msvc", "windows-aarch64")]

/-- `RG_TARGET_TO_PLATFORM.get(target)`. -/
def rgTargetToPlatform (target : String) : Option String :=
  alookup RG_TARGET_PLATFORM_PAIRS target

/-- `DEFAULT_RG_TARGETS`. -/
def DEFAULT_RG_TARGETS : List String := RG_TARGET_PLATFORM_PAIRS.map (fun p => p.1)

/-- `CODEX_TARGETS`. -/
def CODEX_TARGETS : List String :=
  ["x86_64-unknown-linux-musl", "aarch64-unknown-linux-musl",
   "x86_64-apple-darwin", "aarch64-apple-darwin",
   "x86_64-pc-windows-msvc", "aarch64-pc-windows-msvc"]

/-- One provider record of a manifest platform entry. -/
structure Provider where
  url : String
deriving DecidableEq, Repr

/-- One platform entry of the parsed DotSlash manifest: `providers`,
optional `format` (defaulted to `"zst"` by the reader) and optional
`path` (the in-archive member). -/
structure PlatformInfo where
  providers : List Provider
  format : Option String
  path : Option String
deriving DecidableEq, Repr

/-- The parsed manifest: its `platforms` mapping. -/
structure Manifest where
  platforms : List (String × PlatformInfo)
deriving DecidableEq, Repr

/-- Program state threaded through the installers: the filesystem, the
log of URLs for which a download was attempted (observable network
activity), and the log of thread-pool sizes created (observable
concurrency bound). -/
structure St where
  fs : FS
  downloads : List String
  poolSizes : List Nat
deriving DecidableEq, Repr

/-- The network: which URLs serve which content; an unmapped URL makes
`urlopen` raise. -/
abbrev Net := List (String × Content)

/-- `_download_file(url, dest)`: make the parent directory, attempt the
download (logged), and stream the body into `dest` on success; on a
network failure `dest` is not created (`urlopen` raises before `open`). -/
def _download_file (st : St) (net : Net) (url : String) (dest : FPath) :
    Except Err Unit × St :=
  let st1 : St := { st with fs := st.fs.mkdirP dest.dropLast }
  let st2 : St := { st1 with downloads := st1.downloads ++ [url] }
  match alookup net url with
  | some c =>
    (Except.ok (), { st2 with fs := { st2.fs with files := setContent st2.fs.files dest c } })
  | none => (Except.error (Err.downloadError url), st2)

/-- `q` is a leading segment of `p` (so the path `p` lies inside the
directory `q`, or is `q` itself). -/
def pathLeads : FPath → FPath → Bool
  | [], _ => true
  | _ :: _, [] => false
  | x :: xs, y :: ys => x = y && pathLeads xs ys

/-- Remove every file and directory under `tmp` (the cleanup performed
when a `tempfile.TemporaryDirectory` context exits, on success or on an
exception). -/
def cleanupTmp (st : St) (tmp : FPath) : St :=
  { st with fs :=
      { dirs := st.fs.dirs.filter (fun d => !(pathLeads tmp d)),
        files := st.fs.files.filter (fun e => !(pathLeads tmp e.1)) } }

/-- `_install_single_codex_binary(artifacts_dir, vendor_dir, target)`:
check the pre-staged archive exists, make the destination directory,
remove a pre-existing destination, decompress the zst archive onto the
destination and set the executable bit on non-Windows targets. -/
def _install_single_codex_binary (st : St) (artifacts_dir vendor_dir : FPath)
    (target : String) : Except Err FPath × St :=
  let archive_path := artifacts_dir ++ [target, _archive_name_for_target target]
  if (alookup st.fs.files archive_path).isNone then
    (Except.error (Err.missingArtifact archive_path), st)
  else
    let dest_dir := vendor_dir ++ [target, "codex"]
    let st1 : St := { st with fs := st.fs.mkdirP dest_dir }
    let binary_name := if containsWindows target then "codex.exe" else "codex"
    let dest := dest_dir ++ [binary_name]
    let st2 : St := { st1 with fs := { st1.fs with files := adel st1.fs.files dest } }
    match extract_archive st2.fs archive_path "zst" none dest with
    | (Except.error e, fsE) => (Except.error e, { st2 with fs := fsE })
    | (Except.ok _, fsO) =>
      let st3 : St := { st2 with fs := fsO }
      if containsWindows target then (Except.ok dest, st3)
      else
        match chmodFiles st3.fs.files dest 0o755 with
        | some files2 => (Except.ok dest, { st3 with fs := { st3.fs with files := files2 } })
        | none => (Except.error Err.chmodMissing, st3)

/-- `_fetch_single_rg(vendor_dir, target, platform_key, platform_info,
manifest_path)`: take the first provider URL, make the destination
directory, download the archive into a fresh temporary directory, remove
a pre-existing destination, extract, drop the temporary directory, and
set the executable bit on non-Windows platform keys. -/
def _fetch_single_rg (st : St) (net : Net) (vendor_dir : FPath)
    (target platform_key : String) (platform_info : PlatformInfo)
    (tmp_dir : FPath) : Except Err FPath × St :=
  match platform_info.providers with
  | [] => (Except.error (Err.noProviders platform_key), st)
  | provider :: _ =>
    let url := provider.url
    let archive_format := platform_info.format.getD "zst"
    let archive_member := platform_info.path
    let dest_dir := vendor_dir ++ [target, "path"]
    let st1 : St := { st with fs := st.fs.mkdirP dest_dir }
    let is_windows := strStarts platform_key "win"
    let binary_name := if is_windows then "rg.exe" else "rg"
    let dest := dest_dir ++ [binary_name]
    let download_path := tmp_dir ++ [urlBasename url]
    match _download_file st1 net url download_path with
    | (Except.error e, stE) => (Except.error e, cleanupTmp stE tmp_dir)
    | (Except.ok _, st2) =>
      let st3 : St := { st2 with fs := { st2.fs with files := adel st2.fs.files dest } }
      match extract_archive st3.fs download_path archive_format archive_member dest with
      | (Except.error e, fsE) => (Except.error e, cleanupTmp { st3 with fs := fsE } tmp_dir)
      | (Except.ok _, fsO) =>
        let st4 : St := cleanupTmp { st3 with fs := fsO } tmp_dir
        if is_windows then (Except.ok dest, st4)
        else
          match chmodFiles st4.fs.files dest 0o755 with
          | some files2 => (Except.ok dest, { st4 with fs := { st4.fs with files := files2 } })
          | none => (Except.error Err.chmodMissing, st4)

/-- The temporary directory created for the `i`-th submitted rg task
(`tempfile.TemporaryDirectory()` yields a fresh unique directory per
call; freshness is a hypothesis where a theorem needs it). -/
def tmpDirFor (i : Nat) : FPath := ["tmp", Nat.repr i]

/-- Python's `x or 1` applied to `os.cpu_count()` (`None` and `0` are
falsy). -/
def pyOrOne : Option Nat → Nat
  | none => 1
  | some n => if n = 0 then 1 else n

/-- The resolution loop at the top of `fetch_rg`: map each target through
the fixed table and then through the manifest's `platforms` mapping,
stopping at the first unsupported target (`ValueError`) or missing
platform key (`RuntimeError`). -/
def resolveTargets (platforms : List (String × PlatformInfo)) :
    List String → Except Err (List (String × String × PlatformInfo))
  | [] => Except.ok []
  | t :: rest =>
    match rgTargetToPlatform t with
    | none => Except.error (Err.unsupportedTarget t)
    | some pk =>
      match alookup platforms pk with
      | none => Except.error (Err.platformNotInManifest pk)
      | some info =>
        match resolveTargets platforms rest with
        | Except.error e => Except.error e
        | Except.ok l => Except.ok ((t, pk, info) :: l)

/-- Run every task submitted to the rg pool, in submission order.  The
pool never cancels submitted work, so every task runs regardless of the
outcomes of the others; the outcome list is per target. -/
def runRgTasks (net : Net) (vendor_dir : FPath) :
    St → List (String × String × PlatformInfo) → Nat →
    List (String × Except Err FPath) × St
  | st, [], _ => ([], st)
  | st, (t, pk, info) :: rest, i =>
    let p := _fetch_single_rg st net vendor_dir t pk info (tmpDirFor i)
    let q := runRgTasks net vendor_dir p.2 rest (i + 1)
    ((t, p.1) :: q.1, q.2)

/-- Run every task submitted to the codex pool, in submission order. -/
def runCodexTasks (artifacts_dir vendor_dir : FPath) :
    St → List String → List (String × Except Err FPath) × St
  | st, [] => ([], st)
  | st, t :: rest =>
    let p := _install_single_codex_binary st artifacts_dir vendor_dir t
    let q := runCodexTasks artifacts_dir vendor_dir p.2 rest
    ((t, p.1) :: q.1, q.2)

/-- The `for future in as_completed(...)` loop: consume the per-task
outcomes in completion order `order` (a permutation of the task indices),
filling the `results` dict until the first failed task's exception
propagates. -/
def collectLoop (outs : List (String × Except Err FPath)) :
    List Nat → List (String × FPath) → Except Err (List (String × FPath))
  | [], acc => Except.ok acc
  | i :: rest, acc =>
    match outs.get? i with
    | none => collectLoop outs rest acc
    | some (t, Except.ok p) => collectLoop outs rest (aset acc t p)
    | some (_, Except.error e) => Except.error e

/-- The final `[results[target] for target in targets]` comprehension
(`resultKeyError` is the unreachable dict `KeyError`). -/
def gatherByTargets (results : List (String × FPath)) :
    List String → Except Err (List FPath)
  | [] => Except.ok []
  | t :: rest =>
    match alookup results t with
    | none => Except.error Err.resultKeyError
    | some p =>
      match gatherByTargets results rest with
      | Except.error e => Except.error e
      | Except.ok l => Except.ok (p :: l)

/-- `fetch_rg(vendor_dir, targets, manifest_path=...)`.  The parsed
manifest is a parameter standing for the output of `_load_manifest`
(which shells out to `dotslash`); `cpuCount` stands for
`os.cpu_count()`; `order` is the completion order in which
`as_completed` yields the submitted futures. -/
def fetch_rg (st : St) (net : Net) (vendor_dir : FPath)
    (targets? : Option (List String)) (manifest_path : FPath)
    (manifest : Manifest) (cpuCount : Option Nat) (order : List Nat) :
    Except Err (List FPath) × St :=
  let targets := targets?.getD DEFAULT_RG_TARGETS
  if (alookup st.fs.files manifest_path).isNone then
    (Except.error Err.manifestNotFound, st)
  else
    let platforms := manifest.platforms
    let st1 : St := { st with fs := st.fs.mkdirP vendor_dir }
    if targets = [] then (Except.ok [], st1)
    else
      match resolveTargets platforms targets with
      | Except.error e => (Except.error e, st1)
      | Except.ok task_configs =>
        let max_workers := min task_configs.length (max 1 (pyOrOne cpuCount))
        let st2 : St := { st1 with poolSizes := st1.poolSizes ++ [max_workers] }
        let p := runRgTasks net vendor_dir st2 task_configs 0
        match collectLoop p.1 order [] with
        | Except.error e => (Except.error e, p.2)
        | Except.ok results =>
          match gatherByTargets results targets with
          | Except.error e => (Except.error e, p.2)
          | Except.ok paths => (Except.ok paths, p.2)

/-- `install_codex_binaries(artifacts_dir, vendor_dir, targets)`. -/
def install_codex_binaries (st : St) (artifacts_dir vendor_dir : FPath)
    (targets : List String) (cpuCount : Option Nat) (order : List Nat) :
    Except Err (List FPath) × St :=
  if targets = [] then (Except.ok [], st)
  else
    let max_workers := min targets.length (max 1 (pyOrOne cpuCount))
    let st1 : St := { st with poolSizes := st.poolSizes ++ [max_workers] }
    let p := runCodexTasks artifacts_dir vendor_dir st1 targets
    match collectLoop p.1 order [] with
    | Except.error e => (Except.error e, p.2)
    | Except.ok results =>
      match gatherByTargets results targets with
      | Except.error e => (Except.error e, p.2)
      | Except.ok paths => (Except.ok paths, p.2)

/-- The mode an `open(p, "wb")` write at `p` leaves in place: the mode of
the file already there, or the default for a fresh file. -/
def modeAt (files : List (FPath × File)) (p : FPath) : Option Nat :=
  match alookup files p with
  | some f => f.mode
  | none => none

/-- The member `m` names no entry of the archive content `c` under format
`fmt` (only the two member-consulting formats qualify). -/
def memberAbsent (c : Content) (fmt m : String) : Prop :=
  (fmt = "tar.gz" ∧ ∃ entries, c = Content.tarGz entries ∧ alookup entries m = none) ∨
  (fmt = "zip" ∧ ∃ entries, c = Content.zip entries ∧ alookup entries m = none)

/-- The two error kinds of the up-front target-resolution loop of
`fetch_rg`: unsupported target (`ValueError`) and platform key missing
from the manifest (`RuntimeError`). -/
def isResolutionErr : Err → Bool
  | Err.unsupportedTarget _ => true
  | Err.platformNotInManifest _ => true
  | _ => false

/-! ### Concrete states used by witnesses and counterexamples -/

/-- The empty filesystem. -/
def fs0 : FS := { dirs := [], files := [] }

/-- A state whose filesystem holds only the DotSlash manifest file. -/
def stM : St :=
  { fs := { dirs := [], files := [(["manifest"], ⟨Content.bytes [0], none⟩)] },
    downloads := [], poolSizes := [] }

/-- First example target (Linux). -/
def tA : String := "x86_64-unknown-linux-musl"

/-- Second example target (Linux). -/
def tB : String := "aarch64-unknown-linux-musl"

/-- A manifest whose first platform has a good provider URL and whose
second platform has a provider URL the network does not serve. -/
def manBad : Manifest :=
  { platforms :=
      [("linux-x86_64", ⟨[⟨"http://ok/rg.zst"⟩], none, none⟩),
       ("linux-aarch64", ⟨[⟨"http://bad/rg.zst"⟩], none, none⟩)] }

/-- A network serving only the good provider URL. -/
def netOne : Net := [("http://ok/rg.zst", Content.zst [1, 2] true)]

/-- A filesystem holding a corrupt zip archive: its only entry delivers
one byte before the reader raises. -/
def zipBadFS : FS :=
  { dirs := [["t"]],
    files := [(["t", "a.zip"], ⟨Content.zip [("rg", ⟨[7, 8, 9], some 1⟩)], none⟩)] }

/-- A filesystem holding a tar.gz archive with a single entry `x`. -/
def tarFS : FS :=
  { dirs := [["t"]],
    files := [(["t", "a.tar.gz"], ⟨Content.tarGz [("x", [1])], none⟩)] }

/-- A state whose filesystem holds a staged codex artifact for `tA`. -/
def stC : St :=
  { fs := { dirs := [], files :=
      [(["art", tA, "codex-" ++ tA ++ ".zst"], ⟨Content.zst [1, 2, 3] true, none⟩)] },
    downloads := [], poolSizes := [] }

/-- `stC` with a stale binary already present at the destination. -/
def stC2 : St :=
  { fs := { dirs := [], files :=
      [(["art", tA, "codex-" ++ tA ++ ".zst"], ⟨Content.zst [1, 2, 3] true, none⟩),
       (["vendor", tA, "codex", "codex"], ⟨Content.bytes [42], some 1⟩)] },
    downloads := [], poolSizes := [] }

/-- A state with a stale rg binary already present at the destination. -/
def stR2 : St :=
  { fs := { dirs := [], files :=
      [(["vendor", tA, "path", "rg"], ⟨Content.bytes [42], some 1⟩)] },
    downloads := [], poolSizes := [] }

/-! ### Association-list and filesystem lemmas -/

theorem alookup_aset_self {α β : Type} [DecidableEq α] (l : List (α × β)) (a : α) (b : β) :
    alookup (aset l a b) a = some b := by
  induction l with
  | nil => simp [aset, alookup]
  | cons hd tl ih =>
    rcases hd with ⟨x, y⟩
    by_cases hx : x = a
    · simp [aset, hx, alookup]
    · simp [aset, hx, alookup, ih]

theorem alookup_aset_ne {α β : Type} [DecidableEq α] (l : List (α × β)) (a : α) (b : β)
    (x : α) (h : a ≠ x) : alookup (aset l a b) x = alookup l x := by
  induction l with
  | nil => simp [aset, alookup, h]
  | cons hd tl ih =>
    rcases hd with ⟨u, v⟩
    by_cases hu : u = a
    · subst hu
      simp [aset, alookup, h]
    · simp [aset, hu, alookup, ih]

theorem alookup_adel_self {α β : Type} [DecidableEq α] (l : List (α × β)) (a : α) :
    alookup (adel l a) a = none := by
  induction l with
  | nil => simp [adel, alookup]
  | cons hd tl ih =>
    rcases hd with ⟨u, v⟩
    by_cases hu : u = a
    · simp [adel, hu, ih]
    · simp [adel, hu, alookup, ih]

theorem alookup_adel_ne {α β : Type} [DecidableEq α] (l : List (α × β)) (a : α)
    (x : α) (h : a ≠ x) : alookup (adel l a) x = alookup l x := by
  induction l with
  | nil => simp [adel, alookup]
  | cons hd tl ih =>
    rcases hd with ⟨u, v⟩
    by_cases hu : u = a
    · subst hu
      simp [adel, alookup, h, ih]
    · simp [adel, hu, alookup, ih]

theorem mkdirP_files (fs : FS) (p : FPath) : (fs.mkdirP p).files = fs.files := rfl

theorem setContent_self_of_modeless (l : List (FPath × File)) (p : FPath) (c : Content)
    (h : ∀ f, alookup l p = some f → f.mode = none) :
    alookup (setContent l p c) p = some ⟨c, none⟩ := by
  unfold setContent
  cases hl : alookup l p with
  | none => simp [alookup_aset_self]
  | some f =>
    have := h f hl
    simp [this, alookup_aset_self]

theorem setContent_self (l : List (FPath × File)) (p : FPath) (c : Content) :
    ∃ m, alookup (setContent l p c) p = some ⟨c, m⟩ := by
  unfold setContent
  cases hl : alookup l p with
  | none => exact ⟨none, by simp [alookup_aset_self]⟩
  | some f => exact ⟨f.mode, by simp [alookup_aset_self]⟩

theorem setContent_ne (l : List (FPath × File)) (p : FPath) (c : Content)
    (q : FPath) (h : p ≠ q) : alookup (setContent l p c) q = alookup l q := by
  unfold setContent
  cases hl : alookup l p <;> simp [alookup_aset_ne _ _ _ _ h]

theorem chmodFiles_some_lookup (files : List (FPath × File)) (p : FPath) (m : Nat)
    (l2 : List (FPath × File)) (h : chmodFiles files p m = some l2) :
    ∃ f, alookup files p = some f ∧ alookup l2 p = some ⟨f.content, some m⟩ := by
  unfold chmodFiles at h
  cases hl : alookup files p with
  | none => rw [hl] at h; exact absurd h (by simp)
  | some f =>
    rw [hl] at h
    refine ⟨f, rfl, ?_⟩
    have : l2 = aset files p ⟨f.content, some m⟩ := by
      injection h with h2
      exact h2.symm
    rw [this, alookup_aset_self]

theorem chmodFiles_of_found (files : List (FPath × File)) (p : FPath) (m : Nat)
    (f : File) (h : alookup files p = some f) :
    chmodFiles files p m = some (aset files p ⟨f.content, some m⟩) := by
  unfold chmodFiles
  rw [h]

theorem pathLeads_append (l m : FPath) : pathLeads l (l ++ m) = true := by
  induction l with
  | nil => rfl
  | cons x xs ih => simp [pathLeads, ih]

theorem pathLeads_ne (t p q : FPath) (h1 : pathLeads t p = true)
    (h2 : pathLeads t q = false) : p ≠ q := by
  intro h
  rw [h] at h1
  rw [h1] at h2
  exact absurd h2 (by simp)

theorem cleanupTmp_lookup (st : St) (tmp p : FPath) (h : pathLeads tmp p = false) :
    alookup (cleanupTmp st tmp).fs.files p = alookup st.fs.files p := by
  show alookup (st.fs.files.filter _) p = alookup st.fs.files p
  induction st.fs.files with
  | nil => rfl
  | cons hd tl ih =>
    rcases hd with ⟨q, f⟩
    by_cases hq : q = p
    · subst hq
      simp [List.filter, h, alookup]
    · cases hlead : pathLeads tmp q with
      | false => simp [List.filter, hlead, alookup, hq, ih]
      | true => simp [List.filter, hlead, alookup, hq, ih]

theorem getLast?_concat2 (a : FPath) (x y : String) :
    (a ++ [x, y]).getLast? = some y := by
  have : a ++ [x, y] = (a ++ [x]) ++ [y] := by simp
  rw [this, List.getLast?_concat]

theorem lastComp_concat2 (a : FPath) (x y : String) : lastComp (a ++ [x, y]) = y := by
  unfold lastComp
  rw [getLast?_concat2]
  rfl

theorem concat2_ne (a b : FPath) (x y u v : String) (h : y ≠ v) :
    a ++ [x, y] ≠ b ++ [u, v] := by
  intro he
  have h1 : (a ++ [x, y]).getLast? = (b ++ [u, v]).getLast? := by rw [he]
  rw [getLast?_concat2, getLast?_concat2] at h1
  exact h (Option.some.inj h1)

theorem dropLast_concat1 (a : FPath) (x : String) : (a ++ [x]).dropLast = a := by
  simp

/-! ### Claim C2: unsupported format -/

/-- Claim C2 as stated is false: `extract_archive` with an unrecognized
format tag does fail with the unsupported-format error and writes no
file, but it creates the destination's parent directory before
dispatching on the format, so a filesystem directory is created.  Here:
empty filesystem, format `"rar"`, destination `a/b` — afterwards the
directory `a` exists. -/
theorem C2_counterexample :
    (extract_archive fs0 ["arch.bin"] "rar" none ["a", "b"]).1 =
      Except.error (Err.unsupportedFormat "rar") ∧
    (extract_archive fs0 ["arch.bin"] "rar" none ["a", "b"]).2.dirs = [["a"]] ∧
    fs0.dirs = [] := by
  decide

/-- Claim C2 (amended): for every archive path, member and destination,
`extract_archive` with a format tag other than `zst`, `tar.gz` and `zip`
fails with the unsupported-format error and writes or modifies no file;
the only filesystem change is the unconditional creation of the
destination's parent directories, performed before the format is
examined. -/
theorem C2_unsupported_format_no_file_writes (fs : FS) (ap : FPath) (fmt : String)
    (mem : Option String) (dest : FPath)
    (h1 : fmt ≠ "zst") (h2 : fmt ≠ "tar.gz") (h3 : fmt ≠ "zip") :
    (extract_archive fs ap fmt mem dest).1 = Except.error (Err.unsupportedFormat fmt) ∧
    (extract_archive fs ap fmt mem dest).2.files = fs.files ∧
    (extract_archive fs ap fmt mem dest).2.dirs = (fs.mkdirP dest.dropLast).dirs := by
  unfold extract_archive
  simp [h1, h2, h3, FS.mkdirP]

/-- Witness for `C2_unsupported_format_no_file_writes` at format
`"rar"`. -/
theorem C2_witness :
    (extract_archive fs0 ["arch.bin"] "rar" none ["a", "b"]).1 =
      Except.error (Err.unsupportedFormat "rar") ∧
    (extract_archive fs0 ["arch.bin"] "rar" none ["a", "b"]).2.files = fs0.files ∧
    (extract_archive fs0 ["arch.bin"] "rar" none ["a", "b"]).2.dirs =
      (fs0.mkdirP (["a", "b"] : FPath).dropLast).dirs :=
  C2_unsupported_format_no_file_writes fs0 ["arch.bin"] "rar" none ["a", "b"]
    (by decide) (by decide) (by decide)

/-! ### Claim C3: member not found -/

/-- Claim C3: for a tar.gz or zip archive and a (nonempty) member path
absent from the archive, `extract_archive` fails with the
member-not-found error, writes no file, and afterwards no file exists at
the destination (given none was there before the call). -/
theorem C3_member_not_found (fs : FS) (ap dest : FPath) (fmt m : String) (f : File)
    (hm : m ≠ "")
    (hf : alookup fs.files ap = some f)
    (habs : memberAbsent f.content fmt m)
    (hdest : alookup fs.files dest = none) :
    (extract_archive fs ap fmt (some m) dest).1 = Except.error (Err.memberNotFound m) ∧
    (extract_archive fs ap fmt (some m) dest).2.files = fs.files ∧
    alookup (extract_archive fs ap fmt (some m) dest).2.files dest = none := by
  rcases f with ⟨c, md⟩
  rcases habs with ⟨hfmt, entries, hc, hent⟩ | ⟨hfmt, entries, hc, hent⟩ <;>
    subst hfmt <;> simp only [] at hc <;> subst hc <;>
    simp [extract_archive, FS.mkdirP, hm, hf, hent, hdest]

/-- Witness for `C3_member_not_found`: the tar.gz archive `t/a.tar.gz`
contains only the entry `x`; asking for member `y` fails and creates no
file at the destination. -/
theorem C3_witness :
    (extract_archive tarFS ["t", "a.tar.gz"] "tar.gz" (some "y") ["v", "rg"]).1 =
      Except.error (Err.memberNotFound "y") ∧
    (extract_archive tarFS ["t", "a.tar.gz"] "tar.gz" (some "y") ["v", "rg"]).2.files =
      tarFS.files ∧
    alookup (extract_archive tarFS ["t", "a.tar.gz"] "tar.gz" (some "y") ["v", "rg"]).2.files
      ["v", "rg"] = none :=
  C3_member_not_found tarFS ["t", "a.tar.gz"] ["v", "rg"] "tar.gz" "y"
    ⟨Content.tarGz [("x", [1])], none⟩
    (by decide) (by decide)
    (Or.inl ⟨rfl, [("x", [1])], rfl, by decide⟩)
    (by decide)

/-! ### Claim C4: no partial output on failure -/

/-- Claim C4 as stated is false: a zip entry whose data stream breaks
after one byte (a truncated/corrupt archive) makes `extract_archive`
fail, yet a partially written file — the one delivered byte `[7]` of the
member's three bytes `[7, 8, 9]` — remains at the destination, which held
no file before the call. -/
theorem C4_counterexample :
    (extract_archive zipBadFS ["t", "a.zip"] "zip" (some "rg") ["v", "rg"]).1 =
      Except.error Err.badZip ∧
    alookup (extract_archive zipBadFS ["t", "a.zip"] "zip" (some "rg") ["v", "rg"]).2.files
      ["v", "rg"] = some ⟨Content.bytes [7], none⟩ ∧
    alookup zipBadFS.files ["v", "rg"] = none := by
  decide

/-- Claim C4 (amended): the zst and tar.gz formats first materialize the
output next to the archive and only move it onto the destination after
extraction has fully succeeded, so any failure of `extract_archive` in
those formats leaves the filesystem's files — in particular the
destination — exactly as they were; the zip format instead streams
directly into the destination file, and a corrupt or truncated zip entry
leaves a partially written file there. -/
theorem C4_staged_formats_all_or_nothing (fs : FS) (ap dest : FPath) (fmt : String)
    (mem : Option String) (e : Err)
    (hfmt : fmt = "zst" ∨ fmt = "tar.gz")
    (hfail : (extract_archive fs ap fmt mem dest).1 = Except.error e) :
    (extract_archive fs ap fmt mem dest).2.files = fs.files := by
  rcases hfmt with h | h <;> subst h <;> unfold extract_archive at hfail ⊢
  · simp only [if_pos rfl] at hfail ⊢
    cases hap : alookup (fs.mkdirP dest.dropLast).files ap with
    | none => simp only [hap]; rfl
    | some f =>
      rcases f with ⟨c, md⟩
      cases c with
      | zst data ok =>
        cases ok with
        | true => simp [hap] at hfail
        | false => simp only [hap]; rfl
      | bytes data => simp only [hap]; rfl
      | tarGz entries => simp only [hap]; rfl
      | zip entries => simp only [hap]; rfl
  · simp only [if_neg (by decide : ¬("tar.gz" = "zst")), if_pos rfl] at hfail ⊢
    cases mem with
    | none => rfl
    | some m =>
      by_cases hm : m = ""
      · simp only [if_pos hm]; rfl
      · simp only [if_neg hm] at hfail ⊢
        cases hap : alookup (fs.mkdirP dest.dropLast).files ap with
        | none => simp only [hap]; rfl
        | some f =>
          rcases f with ⟨c, md⟩
          cases c with
          | tarGz entries =>
            cases hent : alookup entries m with
            | none => simp only [hap, hent]; rfl
            | some data => simp [hap, hent] at hfail
          | bytes data => simp only [hap]; rfl
          | zst data ok => simp only [hap]; rfl
          | zip entries => simp only [hap]; rfl

/-- Witness for `C4_staged_formats_all_or_nothing`: decompressing a
missing zst archive fails and leaves the files untouched. -/
theorem C4_witness :
    (extract_archive fs0 ["a.zst"] "zst" none ["d", "x"]).2.files = fs0.files :=
  C4_staged_formats_all_or_nothing fs0 ["a.zst"] ["d", "x"] "zst" none
    Err.zstdFailed (Or.inl rfl) (by decide)

/-! ### More filesystem lemmas -/

theorem setContent_self_modeAt (l : List (FPath × File)) (p : FPath) (c : Content) :
    alookup (setContent l p c) p = some ⟨c, modeAt l p⟩ := by
  unfold setContent modeAt
  cases alookup l p <;> simp [alookup_aset_self]

theorem modeAt_of_none (l : List (FPath × File)) (p : FPath)
    (h : alookup l p = none) : modeAt l p = none := by
  unfold modeAt
  rw [h]

theorem moveFile_eq (fs : FS) (src dest : FPath) (f : File)
    (h : alookup fs.files src = some f) :
    moveFile fs src dest = { fs with files := aset (adel fs.files src) dest f } := by
  unfold moveFile
  rw [h]

theorem modeAt_adel_self (l : List (FPath × File)) (p : FPath) :
    modeAt (adel l p) p = none :=
  modeAt_of_none _ _ (alookup_adel_self l p)

theorem modeAt_adel_ne (l : List (FPath × File)) (a x : FPath) (h : a ≠ x) :
    modeAt (adel l a) x = modeAt l x := by
  unfold modeAt
  rw [alookup_adel_ne l a x h]

theorem modeAt_setContent_self (l : List (FPath × File)) (p : FPath) (c : Content) :
    modeAt (setContent l p c) p = modeAt l p := by
  unfold modeAt
  rw [setContent_self_modeAt]
  rfl

theorem modeAt_setContent_ne (l : List (FPath × File)) (p : FPath) (c : Content)
    (q : FPath) (h : p ≠ q) : modeAt (setContent l p c) q = modeAt l q := by
  unfold modeAt
  rw [setContent_ne l p c q h]

/-! ### poolSizes preservation -/

theorem download_poolSizes (st : St) (net : Net) (url : String) (dest : FPath) :
    (_download_file st net url dest).2.poolSizes = st.poolSizes := by
  unfold _download_file
  cases h : alookup net url <;> simp only [h]

theorem download_downloads (st : St) (net : Net) (url : String) (dest : FPath) :
    (_download_file st net url dest).2.downloads = st.downloads ++ [url] := by
  unfold _download_file
  cases h : alookup net url <;> simp only [h]

theorem fetch_single_rg_poolSizes (st : St) (net : Net) (v : FPath) (t pk : String)
    (info : PlatformInfo) (tmp : FPath) :
    (_fetch_single_rg st net v t pk info tmp).2.poolSizes = st.poolSizes := by
  unfold _fetch_single_rg
  split
  · rfl
  · dsimp only
    split
    next e stE heq =>
      have h2 := congrArg (fun r => r.2.poolSizes) heq
      simp only [download_poolSizes] at h2
      exact h2.symm
    next u st2 heq =>
      have h2 := congrArg (fun r => r.2.poolSizes) heq
      simp only [download_poolSizes] at h2
      split
      · exact h2.symm
      · split
        · exact h2.symm
        · split
          · exact h2.symm
          · exact h2.symm

theorem install_single_codex_poolSizes (st : St) (art v : FPath) (t : String) :
    (_install_single_codex_binary st art v t).2.poolSizes = st.poolSizes := by
  unfold _install_single_codex_binary
  dsimp only
  repeat' split
  all_goals rfl

theorem runRgTasks_poolSizes (net : Net) (v : FPath)
    (cfgs : List (String × String × PlatformInfo)) :
    ∀ st i, (runRgTasks net v st cfgs i).2.poolSizes = st.poolSizes := by
  induction cfgs with
  | nil => intro st i; rfl
  | cons c rest ih =>
    intro st i
    rcases c with ⟨t, pk, info⟩
    unfold runRgTasks
    rw [ih]
    exact fetch_single_rg_poolSizes st net v t pk info (tmpDirFor i)

theorem runCodexTasks_poolSizes (art v : FPath) (ts : List String) :
    ∀ st, (runCodexTasks art v st ts).2.poolSizes = st.poolSizes := by
  induction ts with
  | nil => intro st; rfl
  | cons t rest ih =>
    intro st
    unfold runCodexTasks
    rw [ih]
    exact install_single_codex_poolSizes st art v t

theorem resolveTargets_length (platforms : List (String × PlatformInfo)) :
    ∀ ts cfgs, resolveTargets platforms ts = Except.ok cfgs → cfgs.length = ts.length := by
  intro ts
  induction ts with
  | nil =>
    intro cfgs h
    unfold resolveTargets at h
    injection h with h2
    rw [← h2]
    rfl
  | cons t rest ih =>
    intro cfgs h
    unfold resolveTargets at h
    cases hpk : rgTargetToPlatform t with
    | none => simp only [hpk] at h; exact Except.noConfusion h
    | some pk =>
      simp only [hpk] at h
      cases hpi : alookup platforms pk with
      | none => simp only [hpi] at h; exact Except.noConfusion h
      | some info =>
        simp only [hpi] at h
        cases hrest : resolveTargets platforms rest with
        | error e => simp only [hrest] at h; exact Except.noConfusion h
        | ok l =>
          simp only [hrest] at h
          injection h with h2
          rw [← h2]
          simp [ih l hrest]

/-! ### Claim C5: worker-pool size -/

/-- Claim C5: for a nonempty target list that resolves, both
orchestrators create exactly one worker pool, sized
`min(N, max(1, availableParallelism))`; that size is at least 1, at most
the number of requested targets, and at most `max(1, cpu)`. -/
theorem C5_pool_size_bound (st stk : St) (net : Net) (v mp art vk : FPath)
    (targets : List String) (man : Manifest) (c : Nat) (ord ordk : List Nat)
    (cfgs : List (String × String × PlatformInfo))
    (hne : targets ≠ [])
    (hman : (alookup st.fs.files mp).isSome = true)
    (hres : resolveTargets man.platforms targets = Except.ok cfgs)
    (hc : 0 < c) :
    (fetch_rg st net v (some targets) mp man (some c) ord).2.poolSizes =
      st.poolSizes ++ [min targets.length (max 1 c)] ∧
    (install_codex_binaries stk art vk targets (some c) ordk).2.poolSizes =
      stk.poolSizes ++ [min targets.length (max 1 c)] ∧
    1 ≤ min targets.length (max 1 c) ∧
    min targets.length (max 1 c) ≤ targets.length ∧
    min targets.length (max 1 c) ≤ max 1 c := by
  have hpy : pyOrOne (some c) = c := by
    unfold pyOrOne
    simp [Nat.pos_iff_ne_zero.mp hc]
  have hlen := resolveTargets_length man.platforms targets cfgs hres
  refine ⟨?_, ?_, ?_, Nat.min_le_left _ _, Nat.min_le_right _ _⟩
  · unfold fetch_rg
    cases halo : alookup st.fs.files mp with
    | none => rw [halo] at hman; exact absurd hman (by simp)
    | some mf =>
      simp only [halo, Option.getD_some, Option.isNone_some, Bool.false_eq_true,
        if_false, if_neg hne, hres, hpy, hlen]
      cases hcol : collectLoop (runRgTasks net v _ cfgs 0).1 ord [] with
      | error e =>
        simp only [hcol]
        rw [runRgTasks_poolSizes]
      | ok results =>
        simp only [hcol]
        cases hg : gatherByTargets results targets with
        | error e =>
          simp only [hg]
          rw [runRgTasks_poolSizes]
        | ok paths =>
          simp only [hg]
          rw [runRgTasks_poolSizes]
  · unfold install_codex_binaries
    simp only [if_neg hne]
    cases hcol : collectLoop (runCodexTasks art vk _ targets).1 ordk [] with
    | error e =>
      simp only [hcol]
      rw [runCodexTasks_poolSizes]
      simp [hpy]
    | ok results =>
      simp only [hcol]
      cases hg : gatherByTargets results targets with
      | error e =>
        simp only [hg]
        rw [runCodexTasks_poolSizes]
        simp [hpy]
      | ok paths =>
        simp only [hg]
        rw [runCodexTasks_poolSizes]
        simp [hpy]
  · refine Nat.le_min.mpr ⟨?_, Nat.le_max_left 1 c⟩
    exact Nat.succ_le_of_lt (List.length_pos.mpr hne)

/-- Witness for `C5_pool_size_bound`: two targets, four CPUs — one pool
of size 2 per orchestrator. -/
theorem C5_witness :
    (fetch_rg stM netOne ["vendor"] (some [tA, tB]) ["manifest"] manBad (some 4)
        [0, 1]).2.poolSizes = stM.poolSizes ++ [min [tA, tB].length (max 1 4)] ∧
    (install_codex_binaries stM ["art"] ["vendor"] [tA, tB] (some 4)
        [0, 1]).2.poolSizes = stM.poolSizes ++ [min [tA, tB].length (max 1 4)] ∧
    1 ≤ min [tA, tB].length (max 1 4) ∧
    min [tA, tB].length (max 1 4) ≤ [tA, tB].length ∧
    min [tA, tB].length (max 1 4) ≤ max 1 4 :=
  C5_pool_size_bound stM stM netOne ["vendor"] ["manifest"] ["art"] ["vendor"]
    [tA, tB] manBad 4 [0, 1] [0, 1]
    [(tA, "linux-x86_64", ⟨[⟨"http://ok/rg.zst"⟩], none, none⟩),
     (tB, "linux-aarch64", ⟨[⟨"http://bad/rg.zst"⟩], none, none⟩)]
    (by decide) (by decide) (by decide) (by decide)

/-! ### Claim C6: empty target list -/

/-- Claim C6 as stated is false for `fetch_rg`: with an empty target list
it does return the empty mapping, but it is not free of side effects — it
creates the vendor directory (and requires and loads the manifest) before
the empty-list early return.  Here the vendor directory did not exist
before the call and exists afterwards. -/
theorem C6_counterexample :
    (fetch_rg stM netOne ["vendor"] (some []) ["manifest"] manBad (some 4) []).1 =
      Except.ok [] ∧
    (fetch_rg stM netOne ["vendor"] (some []) ["manifest"] manBad (some 4) []).2.fs.dirs =
      [["vendor"]] ∧
    stM.fs.dirs = [] := by
  decide

/-- Claim C6 (amended): `install_codex_binaries` with an empty target
list is a pure no-op returning the empty result; `fetch_rg` with an empty
target list returns the empty result without downloading or installing
anything, but only after checking that the manifest exists (loading it)
and creating the vendor directory — its only state change. -/
theorem C6_empty_targets (st stk : St) (net : Net) (v mp art vk : FPath)
    (man : Manifest) (cpu : Option Nat) (ord ordk : List Nat) :
    install_codex_binaries stk art vk [] cpu ordk = (Except.ok [], stk) ∧
    ((alookup st.fs.files mp).isSome = true →
      fetch_rg st net v (some []) mp man cpu ord =
        (Except.ok [], { st with fs := st.fs.mkdirP v })) := by
  constructor
  · rfl
  · intro hman
    unfold fetch_rg
    cases halo : alookup st.fs.files mp with
    | none => rw [halo] at hman; exact absurd hman (by simp)
    | some mf => simp [halo]

/-- Witness for `C6_empty_targets` on concrete states. -/
theorem C6_witness :
    install_codex_binaries stM ["art"] ["vendor"] [] (some 4) [] =
      (Except.ok [], stM) ∧
    fetch_rg stM netOne ["vendor"] (some []) ["manifest"] manBad (some 4) [] =
      (Except.ok [], { stM with fs := stM.fs.mkdirP ["vendor"] }) :=
  ⟨(C6_empty_targets stM stM netOne ["vendor"] ["manifest"] ["art"] ["vendor"]
      manBad (some 4) [] []).1,
   (C6_empty_targets stM stM netOne ["vendor"] ["manifest"] ["art"] ["vendor"]
      manBad (some 4) [] []).2 (by decide)⟩

/-! ### Claim C10: up-front resolution -/

theorem resolveTargets_error_of_bad (platforms : List (String × PlatformInfo)) :
    ∀ ts t, t ∈ ts →
    (rgTargetToPlatform t = none ∨
      ∀ pk, rgTargetToPlatform t = some pk → alookup platforms pk = none) →
    ∃ e, resolveTargets platforms ts = Except.error e ∧ isResolutionErr e = true := by
  intro ts
  induction ts with
  | nil => intro t h; exact absurd h (List.not_mem_nil t)
  | cons u rest ih =>
    intro t hmem hbad
    unfold resolveTargets
    cases hpk : rgTargetToPlatform u with
    | none => exact ⟨Err.unsupportedTarget u, by simp [hpk], rfl⟩
    | some pk =>
      cases hpi : alookup platforms pk with
      | none => exact ⟨Err.platformNotInManifest pk, by simp [hpk, hpi], rfl⟩
      | some info =>
        have ht : t ∈ rest := by
          rcases List.mem_cons.mp hmem with he | h2
          · subst he
            rcases hbad with hb | hb
            · rw [hb] at hpk; exact absurd hpk (by simp)
            · rw [hb pk hpk] at hpi; exact absurd hpi (by simp)
          · exact h2
        obtain ⟨e, he, hkind⟩ := ih t ht hbad
        refine ⟨e, ?_, hkind⟩
        simp [hpk, hpi, he]

/-- Claim C10: every requested target is resolved — through the fixed
table, then through the manifest's platforms mapping — before any task is
submitted; an unknown target or a platform key missing from the manifest
makes `fetch_rg` raise the corresponding resolution error with no pool
created, no download attempted and no file written: the state differs
from the initial one only by the vendor directory creation. -/
theorem C10_resolution_up_front (st : St) (net : Net) (v : FPath)
    (targets : List String) (mp : FPath) (man : Manifest) (cpu : Option Nat)
    (ord : List Nat) (t : String)
    (hman : (alookup st.fs.files mp).isSome = true)
    (hmem : t ∈ targets)
    (hbad : rgTargetToPlatform t = none ∨
      ∀ pk, rgTargetToPlatform t = some pk → alookup man.platforms pk = none) :
    ∃ e, fetch_rg st net v (some targets) mp man cpu ord =
        (Except.error e, { st with fs := st.fs.mkdirP v }) ∧
      isResolutionErr e = true := by
  obtain ⟨e, he, hk⟩ := resolveTargets_error_of_bad man.platforms targets t hmem hbad
  refine ⟨e, ?_, hk⟩
  unfold fetch_rg
  cases halo : alookup st.fs.files mp with
  | none => rw [halo] at hman; exact absurd hman (by simp)
  | some mf =>
    have hne : targets ≠ [] := by
      intro h
      subst h
      exact absurd hmem (List.not_mem_nil t)
    simp [halo, hne, he]

/-- Witness for `C10_resolution_up_front`: the unknown target
`"bogus"`. -/
theorem C10_witness :
    ∃ e, fetch_rg stM netOne ["vendor"] (some ["bogus"]) ["manifest"] manBad
        (some 4) [] = (Except.error e, { stM with fs := stM.fs.mkdirP ["vendor"] }) ∧
      isResolutionErr e = true :=
  C10_resolution_up_front stM netOne ["vendor"] ["bogus"] ["manifest"] manBad
    (some 4) [] "bogus" (by decide) (by simp) (Or.inl (by decide))

/-! ### Success-path characterization of the single-target installers -/

theorem codex_ok_path (st : St) (art v : FPath) (t : String) (p : FPath)
    (h : (_install_single_codex_binary st art v t).1 = Except.ok p) :
    p = v ++ [t, "codex", if containsWindows t then "codex.exe" else "codex"] := by
  unfold _install_single_codex_binary at h
  cases hw : containsWindows t <;>
    simp only [hw, Bool.false_eq_true, eq_self_iff_true, if_true, if_false] at h ⊢
  · split at h
    · exact absurd h (by simp)
    · split at h
      · exact absurd h (by simp)
      · split at h
        · simp at h
          simp [← h]
        · exact absurd h (by simp)
  · split at h
    · exact absurd h (by simp)
    · split at h
      · exact absurd h (by simp)
      · simp at h
        simp [← h]

theorem rg_ok_path (st : St) (net : Net) (v : FPath) (t pk : String)
    (info : PlatformInfo) (tmp : FPath) (q : FPath)
    (h : (_fetch_single_rg st net v t pk info tmp).1 = Except.ok q) :
    q = v ++ [t, "path", if strStarts pk "win" then "rg.exe" else "rg"] := by
  unfold _fetch_single_rg at h
  cases hw : strStarts pk "win" <;>
    simp only [hw, Bool.false_eq_true, eq_self_iff_true, if_true, if_false] at h ⊢
  · split at h
    · exact absurd h (by simp)
    · split at h
      · exact absurd h (by simp)
      · split at h
        · exact absurd h (by simp)
        · split at h
          · simp at h
            simp [← h]
          · exact absurd h (by simp)
  · split at h
    · exact absurd h (by simp)
    · split at h
      · exact absurd h (by simp)
      · split at h
        · exact absurd h (by simp)
        · simp at h
          simp [← h]

theorem pk_win_of_table (t pk : String) (h : rgTargetToPlatform t = some pk) :
    strStarts pk "win" = containsWindows t := by
  simp only [rgTargetToPlatform, RG_TARGET_PLATFORM_PAIRS, alookup] at h
  split_ifs at h <;>
    first
      | exact Option.noConfusion h
      | (injection h with h0; subst_vars; decide)

theorem lastComp_concat1 (a : FPath) (x : String) : lastComp (a ++ [x]) = x := by
  unfold lastComp
  rw [List.getLast?_concat]
  rfl

theorem dropLast_concat2 (a : FPath) (x y : String) : (a ++ [x, y]).dropLast = a ++ [x] := by
  have h : a ++ [x, y] = (a ++ [x]) ++ [y] := by simp
  rw [h]
  simp

theorem extract_zst_ok_of_archive (fs : FS) (ap dest : FPath) (mem : Option String)
    (data : List Nat) (md : Option Nat)
    (hap : alookup fs.files ap = some ⟨Content.zst data true, md⟩) :
    (extract_archive fs ap "zst" mem dest).1 = Except.ok () ∧
    alookup (extract_archive fs ap "zst" mem dest).2.files dest =
      some ⟨Content.bytes data, modeAt fs.files (ap.dropLast ++ [lastComp dest])⟩ := by
  have hsrc := setContent_self_modeAt fs.files (ap.dropLast ++ [lastComp dest])
    (Content.bytes data)
  unfold extract_archive
  simp only [if_pos rfl, mkdirP_files, hap]
  constructor
  · rfl
  · rw [moveFile_eq _ _ _ _ hsrc]
    simp [alookup_aset_self]

/-- Success inversion for `extract_archive` with mode tracking: when the
staging locations and the destination carry no pre-existing explicit
mode, a successful extraction leaves the destination holding plain bytes
with the default mode. -/
theorem extract_ok_dest_mode (fs : FS) (ap : FPath) (fmt : String) (mem : Option String)
    (dest : FPath) (fsF : FS)
    (h : extract_archive fs ap fmt mem dest = (Except.ok (), fsF))
    (hz : modeAt fs.files (ap.dropLast ++ [lastComp dest]) = none)
    (ht : ∀ m2, mem = some m2 → modeAt fs.files (ap.dropLast ++ m2.splitOn "/") = none)
    (hd : modeAt fs.files dest = none) :
    ∃ data, alookup fsF.files dest = some ⟨Content.bytes data, none⟩ := by
  unfold extract_archive at h
  by_cases h1 : fmt = "zst"
  · subst h1
    simp only [if_pos rfl, mkdirP_files] at h
    cases hap : alookup fs.files ap with
    | none =>
      simp only [hap] at h
      injection h with hr hfs
      exact Except.noConfusion hr
    | some f =>
      rcases f with ⟨c, md⟩
      cases c with
      | zst data ok =>
        cases ok with
        | true =>
          simp only [hap] at h
          injection h with hr hfs
          refine ⟨data, ?_⟩
          rw [← hfs, moveFile_eq _ _ _ _
            (setContent_self_modeAt fs.files _ (Content.bytes data))]
          simp [alookup_aset_self, hz]
        | false =>
          simp only [hap] at h
          injection h with hr hfs
          exact Except.noConfusion hr
      | bytes data =>
        simp only [hap] at h
        injection h with hr hfs
        exact Except.noConfusion hr
      | tarGz entries =>
        simp only [hap] at h
        injection h with hr hfs
        exact Except.noConfusion hr
      | zip entries =>
        simp only [hap] at h
        injection h with hr hfs
        exact Except.noConfusion hr
  · by_cases h2 : fmt = "tar.gz"
    · subst h2
      simp only [if_neg h1, if_pos rfl, mkdirP_files] at h
      cases mem with
      | none =>
        injection h with hr hfs
        exact Except.noConfusion hr
      | some m =>
        by_cases hm : m = ""
        · simp only [if_pos hm] at h
          injection h with hr hfs
          exact Except.noConfusion hr
        · simp only [if_neg hm] at h
          cases hap : alookup fs.files ap with
          | none =>
            simp only [hap] at h
            injection h with hr hfs
            exact Except.noConfusion hr
          | some f =>
            rcases f with ⟨c, md⟩
            cases c with
            | tarGz entries =>
              simp only [hap] at h
              cases hent : alookup entries m with
              | none =>
                simp only [hent] at h
                injection h with hr hfs
                exact Except.noConfusion hr
              | some data =>
                simp only [hent, mkdirP_files] at h
                injection h with hr hfs
                refine ⟨data, ?_⟩
                rw [← hfs, moveFile_eq _ _ _ _
                  (setContent_self_modeAt fs.files _ (Content.bytes data))]
                simp [alookup_aset_self, ht m rfl]
            | bytes data =>
              simp only [hap] at h
              injection h with hr hfs
              exact Except.noConfusion hr
            | zst data ok =>
              simp only [hap] at h
              injection h with hr hfs
              exact Except.noConfusion hr
            | zip entries =>
              simp only [hap] at h
              injection h with hr hfs
              exact Except.noConfusion hr
    · by_cases h3 : fmt = "zip"
      · subst h3
        simp only [if_neg h1, if_neg h2, if_pos rfl, mkdirP_files] at h
        cases mem with
        | none =>
          injection h with hr hfs
          exact Except.noConfusion hr
        | some m =>
          by_cases hm : m = ""
          · simp only [if_pos hm] at h
            injection h with hr hfs
            exact Except.noConfusion hr
          · simp only [if_neg hm] at h
            cases hap : alookup fs.files ap with
            | none =>
              simp only [hap] at h
              injection h with hr hfs
              exact Except.noConfusion hr
            | some f =>
              rcases f with ⟨c, md⟩
              cases c with
              | zip entries =>
                simp only [hap] at h
                cases hent : alookup entries m with
                | none =>
                  simp only [hent] at h
                  injection h with hr hfs
                  exact Except.noConfusion hr
                | some z =>
                  simp only [hent] at h
                  cases htr : z.truncAt with
                  | none =>
                    simp only [htr] at h
                    injection h with hr hfs
                    refine ⟨z.data, ?_⟩
                    rw [← hfs]
                    rw [show ({ fs.mkdirP dest.dropLast with
                      files := setContent fs.files dest (Content.bytes z.data) } : FS).files =
                      setContent fs.files dest (Content.bytes z.data) from rfl]
                    rw [setContent_self_modeAt, hd]
                  | some k =>
                    simp only [htr] at h
                    injection h with hr hfs
                    exact Except.noConfusion hr
              | bytes data =>
                simp only [hap] at h
                injection h with hr hfs
                exact Except.noConfusion hr
              | zst data ok =>
                simp only [hap] at h
                injection h with hr hfs
                exact Except.noConfusion hr
              | tarGz entries =>
                simp only [hap] at h
                injection h with hr hfs
                exact Except.noConfusion hr
      · simp only [if_neg h1, if_neg h2, if_neg h3] at h
        injection h with hr hfs
        exact Except.noConfusion hr

theorem codex_ok_mode (st : St) (art v : FPath) (t : String) (p : FPath)
    (h : (_install_single_codex_binary st art v t).1 = Except.ok p)
    (hstage : modeAt st.fs.files
      (art ++ [t, if containsWindows t then "codex.exe" else "codex"]) = none) :
    ∃ data, alookup (_install_single_codex_binary st art v t).2.fs.files p =
      some ⟨Content.bytes data, if containsWindows t then none else some 0o755⟩ := by
  rcases hE : _install_single_codex_binary st art v t with ⟨r, stF⟩
  rw [hE] at h
  unfold _install_single_codex_binary at hE
  cases hw : containsWindows t <;>
    simp only [hw, Bool.false_eq_true, eq_self_iff_true, if_true, if_false] at hE hstage ⊢
  · split at hE
    · injection hE with hA hB
      rw [← hA] at h
      exact absurd h (by simp)
    · split at hE
      next e fsE heqE =>
        injection hE with hA hB
        rw [← hA] at h
        exact absurd h (by simp)
      next a fsO heqE =>
        have hmode : ∃ data, alookup fsO.files (v ++ [t, "codex"] ++ ["codex"]) =
            some ⟨Content.bytes data, none⟩ := by
          refine extract_ok_dest_mode _ _ _ _ _ _ heqE ?_ ?_ ?_
          · rw [dropLast_concat2, lastComp_concat1]
            by_cases hsd : (art ++ [t]) ++ ["codex"] = v ++ [t, "codex"] ++ ["codex"]
            · rw [hsd]
              exact modeAt_adel_self _ _
            · rw [modeAt_adel_ne _ _ _ (fun hh => hsd hh.symm)]
              rw [show (art ++ [t]) ++ ["codex"] = art ++ [t, "codex"] from by simp]
              exact hstage
          · intro m2 hm2
            exact Option.noConfusion hm2
          · exact modeAt_adel_self _ _
        obtain ⟨data, hdata⟩ := hmode
        split at hE
        next files2 heqC =>
          injection hE with hA hB
          rw [← hA] at h
          have h2 : Except.ok (v ++ [t, "codex"] ++ ["codex"]) = Except.ok p := h
          injection h2 with h3
          subst h3
          refine ⟨data, ?_⟩
          rw [← hB]
          rw [chmodFiles_of_found _ _ _ _ hdata] at heqC
          injection heqC with hC
          rw [← hC]
          simp [alookup_aset_self]
        next heqC =>
          injection hE with hA hB
          rw [← hA] at h
          exact absurd h (by simp)
  · split at hE
    · injection hE with hA hB
      rw [← hA] at h
      exact absurd h (by simp)
    · split at hE
      next e fsE heqE =>
        injection hE with hA hB
        rw [← hA] at h
        exact absurd h (by simp)
      next a fsO heqE =>
        injection hE with hA hB
        rw [← hA] at h
        have h2 : Except.ok (v ++ [t, "codex"] ++ ["codex.exe"]) = Except.ok p := h
        injection h2 with h3
        subst h3
        have hmode : ∃ data, alookup fsO.files (v ++ [t, "codex"] ++ ["codex.exe"]) =
            some ⟨Content.bytes data, none⟩ := by
          refine extract_ok_dest_mode _ _ _ _ _ _ heqE ?_ ?_ ?_
          · rw [dropLast_concat2, lastComp_concat1]
            by_cases hsd : (art ++ [t]) ++ ["codex.exe"] = v ++ [t, "codex"] ++ ["codex.exe"]
            · rw [hsd]
              exact modeAt_adel_self _ _
            · rw [modeAt_adel_ne _ _ _ (fun hh => hsd hh.symm)]
              rw [show (art ++ [t]) ++ ["codex.exe"] = art ++ [t, "codex.exe"] from by simp]
              exact hstage
          · intro m2 hm2
            exact Option.noConfusion hm2
          · exact modeAt_adel_self _ _
        obtain ⟨data, hdata⟩ := hmode
        refine ⟨data, ?_⟩
        rw [← hB]
        exact hdata

theorem rg_ok_mode (st : St) (net : Net) (v : FPath) (t pk : String)
    (info : PlatformInfo) (tmp : FPath) (q : FPath)
    (h : (_fetch_single_rg st net v t pk info tmp).1 = Except.ok q)
    (hfresh : ∀ r2, pathLeads tmp r2 = true → alookup st.fs.files r2 = none)
    (hout : pathLeads tmp (v ++ [t, "path"] ++
      [if strStarts pk "win" then "rg.exe" else "rg"]) = false) :
    ∃ data, alookup (_fetch_single_rg st net v t pk info tmp).2.fs.files q =
      some ⟨Content.bytes data, if strStarts pk "win" then none else some 0o755⟩ := by
  rcases hE : _fetch_single_rg st net v t pk info tmp with ⟨r, stF⟩
  rw [hE] at h
  unfold _fetch_single_rg at hE
  cases hw : strStarts pk "win" <;>
    simp only [hw, Bool.false_eq_true, eq_self_iff_true, if_true, if_false] at hE hout ⊢
  · split at hE
    · injection hE with hA hB
      rw [← hA] at h
      exact absurd h (by simp)
    next prov ptail heqP =>
      split at hE
      next e stE heqD =>
        injection hE with hA hB
        rw [← hA] at h
        exact absurd h (by simp)
      next u st2 heqD =>
        split at hE
        next e fsE heqE =>
          injection hE with hA hB
          rw [← hA] at h
          exact absurd h (by simp)
        next a fsO heqE =>
          unfold _download_file at heqD
          cases hnet : alookup net prov.url with
          | none =>
            simp only [hnet] at heqD
            injection heqD with hA2 hB2
            exact Except.noConfusion hA2
          | some c =>
            simp only [hnet] at heqD
            injection heqD with hA2 hB2
            rw [← hB2] at heqE
            dsimp only at heqE
            simp only [mkdirP_files] at heqE
            have hall : ∀ r2, pathLeads tmp r2 = true →
                modeAt (adel (setContent st.fs.files (tmp ++ [urlBasename prov.url]) c)
                  (v ++ [t, "path"] ++ ["rg"])) r2 = none := by
              intro r2 hr2
              have hne2 : r2 ≠ v ++ [t, "path"] ++ ["rg"] :=
                pathLeads_ne tmp r2 _ hr2 hout
              rw [modeAt_adel_ne _ _ _ (Ne.symm hne2)]
              by_cases hpd : tmp ++ [urlBasename prov.url] = r2
              · rw [← hpd]
                rw [modeAt_setContent_self]
                exact modeAt_of_none _ _ (hfresh _ (by rw [hpd]; exact hr2))
              · rw [modeAt_setContent_ne _ _ _ _ hpd]
                exact modeAt_of_none _ _ (hfresh _ hr2)
            have hmode : ∃ data, alookup fsO.files (v ++ [t, "path"] ++ ["rg"]) =
                some ⟨Content.bytes data, none⟩ := by
              refine extract_ok_dest_mode _ _ _ _ _ _ heqE ?_ ?_ ?_
              · rw [dropLast_concat1, lastComp_concat1]
                exact hall _ (pathLeads_append _ _)
              · intro m2 hm2
                rw [dropLast_concat1]
                exact hall _ (pathLeads_append _ _)
              · exact modeAt_adel_self _ _
            obtain ⟨data, hdata⟩ := hmode
            split at hE
            next files2 heqC =>
              injection hE with hA hB
              rw [← hA] at h
              have h2 : Except.ok (v ++ [t, "path"] ++ ["rg"]) = Except.ok q := h
              injection h2 with h3
              subst h3
              obtain ⟨f, hf1, hf2⟩ := chmodFiles_some_lookup _ _ _ _ heqC
              rw [cleanupTmp_lookup _ _ _ hout] at hf1
              have hf1b : alookup fsO.files (v ++ [t, "path"] ++ ["rg"]) = some f := hf1
              rw [hdata] at hf1b
              injection hf1b with hf3
              subst hf3
              refine ⟨data, ?_⟩
              rw [← hB]
              exact hf2
            next heqC =>
              injection hE with hA hB
              rw [← hA] at h
              exact absurd h (by simp)
  · split at hE
    · injection hE with hA hB
      rw [← hA] at h
      exact absurd h (by simp)
    next prov ptail heqP =>
      split at hE
      next e stE heqD =>
        injection hE with hA hB
        rw [← hA] at h
        exact absurd h (by simp)
      next u st2 heqD =>
        split at hE
        next e fsE heqE =>
          injection hE with hA hB
          rw [← hA] at h
          exact absurd h (by simp)
        next a fsO heqE =>
          unfold _download_file at heqD
          cases hnet : alookup net prov.url with
          | none =>
            simp only [hnet] at heqD
            injection heqD with hA2 hB2
            exact Except.noConfusion hA2
          | some c =>
            simp only [hnet] at heqD
            injection heqD with hA2 hB2
            rw [← hB2] at heqE
            dsimp only at heqE
            simp only [mkdirP_files] at heqE
            have hall : ∀ r2, pathLeads tmp r2 = true →
                modeAt (adel (setContent st.fs.files (tmp ++ [urlBasename prov.url]) c)
                  (v ++ [t, "path"] ++ ["rg.exe"])) r2 = none := by
              intro r2 hr2
              have hne2 : r2 ≠ v ++ [t, "path"] ++ ["rg.exe"] :=
                pathLeads_ne tmp r2 _ hr2 hout
              rw [modeAt_adel_ne _ _ _ (Ne.symm hne2)]
              by_cases hpd : tmp ++ [urlBasename prov.url] = r2
              · rw [← hpd]
                rw [modeAt_setContent_self]
                exact modeAt_of_none _ _ (hfresh _ (by rw [hpd]; exact hr2))
              · rw [modeAt_setContent_ne _ _ _ _ hpd]
                exact modeAt_of_none _ _ (hfresh _ hr2)
            have hmode : ∃ data, alookup fsO.files (v ++ [t, "path"] ++ ["rg.exe"]) =
                some ⟨Content.bytes data, none⟩ := by
              refine extract_ok_dest_mode _ _ _ _ _ _ heqE ?_ ?_ ?_
              · rw [dropLast_concat1, lastComp_concat1]
                exact hall _ (pathLeads_append _ _)
              · intro m2 hm2
                rw [dropLast_concat1]
                exact hall _ (pathLeads_append _ _)
              · exact modeAt_adel_self _ _
            obtain ⟨data, hdata⟩ := hmode
            injection hE with hA hB
            rw [← hA] at h
            have h2 : Except.ok (v ++ [t, "path"] ++ ["rg.exe"]) = Except.ok q := h
            injection h2 with h3
            subst h3
            refine ⟨data, ?_⟩
            rw [← hB]
            rw [cleanupTmp_lookup _ _ _ hout]
            exact hdata


/-! ### Claim C7: install destination layout -/

/-- Claim C7: a successful single-target install returns exactly
`<install-root>/<target>/<role>/<binary-name>`: role `codex` with binary
name `codex`/`codex.exe` for the primary tool, role `path` with binary
name `rg`/`rg.exe` for the ripgrep helper, where the name carries the
`.exe` suffix exactly when the target is Windows-class (the target
contains `"windows"`; for the rg installer the platform key comes from
the fixed table, and such keys start with `"win"` exactly for
Windows-class targets). -/
theorem C7_install_destination_layout (st st2 : St) (net : Net)
    (art vendor vendor2 : FPath) (target pk : String) (info : PlatformInfo)
    (tmp : FPath) (p q : FPath)
    (hpk : rgTargetToPlatform target = some pk)
    (h1 : (_install_single_codex_binary st art vendor target).1 = Except.ok p)
    (h2 : (_fetch_single_rg st2 net vendor2 target pk info tmp).1 = Except.ok q) :
    p = vendor ++ [target, "codex",
      if containsWindows target then "codex.exe" else "codex"] ∧
    q = vendor2 ++ [target, "path",
      if containsWindows target then "rg.exe" else "rg"] := by
  refine ⟨codex_ok_path st art vendor target p h1, ?_⟩
  rw [rg_ok_path st2 net vendor2 target pk info tmp q h2,
    pk_win_of_table target pk hpk]

/-- Witness for `C7_install_destination_layout`: a staged codex artifact
and a served rg archive for the Linux x86_64 target. -/
theorem C7_witness :
    (["vendor", tA, "codex", "codex"] : FPath) = ["vendor"] ++ [tA, "codex",
      if containsWindows tA then "codex.exe" else "codex"] ∧
    (["vendor", tA, "path", "rg"] : FPath) = ["vendor"] ++ [tA, "path",
      if containsWindows tA then "rg.exe" else "rg"] :=
  C7_install_destination_layout stC stM netOne ["art"] ["vendor"] ["vendor"]
    tA "linux-x86_64" ⟨[⟨"http://ok/rg.zst"⟩], none, none⟩ ["tmp", "0"]
    ["vendor", tA, "codex", "codex"] ["vendor", tA, "path", "rg"]
    (by decide) (by decide) (by decide)

/-! ### Claim C8: executable mode -/

/-- Claim C8: after a successful single-target install, the destination
file's mode is `0o755` (execute for owner, group and other) when the
target is non-Windows-class, and the chmod step is skipped so the file
keeps the default creation mode when the target is Windows-class.  The
staging locations are assumed fresh, as the script arranges: the
pre-staged artifact directory holds no stray file named like the binary,
and the per-task temporary directory starts empty and is disjoint from
the destination. -/
theorem C8_executable_mode (st st2 : St) (net : Net) (art vendor vendor2 : FPath)
    (target pk : String) (info : PlatformInfo) (tmp : FPath) (p q : FPath)
    (hpk : rgTargetToPlatform target = some pk)
    (h1 : (_install_single_codex_binary st art vendor target).1 = Except.ok p)
    (h2 : (_fetch_single_rg st2 net vendor2 target pk info tmp).1 = Except.ok q)
    (hstage : modeAt st.fs.files
      (art ++ [target, if containsWindows target then "codex.exe" else "codex"]) = none)
    (hfresh : ∀ r2, pathLeads tmp r2 = true → alookup st2.fs.files r2 = none)
    (hout : pathLeads tmp (vendor2 ++ [target, "path"] ++
      [if strStarts pk "win" then "rg.exe" else "rg"]) = false) :
    (∃ d1, alookup (_install_single_codex_binary st art vendor target).2.fs.files p =
      some ⟨Content.bytes d1, if containsWindows target then none else some 0o755⟩) ∧
    (∃ d2, alookup (_fetch_single_rg st2 net vendor2 target pk info tmp).2.fs.files q =
      some ⟨Content.bytes d2, if containsWindows target then none else some 0o755⟩) := by
  refine ⟨codex_ok_mode st art vendor target p h1 hstage, ?_⟩
  rw [← pk_win_of_table target pk hpk]
  exact rg_ok_mode st2 net vendor2 target pk info tmp q h2 hfresh hout

/-- Witness for `C8_executable_mode` on the Linux x86_64 target: both
installed binaries end up with mode `0o755`. -/
theorem C8_witness :
    (∃ d1, alookup (_install_single_codex_binary stC ["art"] ["vendor"] tA).2.fs.files
        ["vendor", tA, "codex", "codex"] =
      some ⟨Content.bytes d1, if containsWindows tA then none else some 0o755⟩) ∧
    (∃ d2, alookup (_fetch_single_rg stM netOne ["vendor"] tA "linux-x86_64"
        ⟨[⟨"http://ok/rg.zst"⟩], none, none⟩ ["tmp", "0"]).2.fs.files
        ["vendor", tA, "path", "rg"] =
      some ⟨Content.bytes d2, if containsWindows tA then none else some 0o755⟩) :=
  C8_executable_mode stC stM netOne ["art"] ["vendor"] ["vendor"] tA "linux-x86_64"
    ⟨[⟨"http://ok/rg.zst"⟩], none, none⟩ ["tmp", "0"]
    ["vendor", tA, "codex", "codex"] ["vendor", tA, "path", "rg"]
    (by decide) (by decide) (by decide) (by decide)
    (by
      intro r2 hr2
      have hne : ¬((["manifest"] : FPath) = r2) := by
        intro he
        rw [← he] at hr2
        exact absurd hr2 (by decide)
      show alookup stM.fs.files r2 = none
      simp only [stM]
      simp only [alookup, if_neg hne])
    (by decide)

/-! ### Claim C9: idempotent overwrite -/

theorem getLast?_concat3 (a : FPath) (x y z : String) :
    (a ++ [x, y, z]).getLast? = some z := by
  have h : a ++ [x, y, z] = (a ++ [x, y]) ++ [z] := by simp
  rw [h, List.getLast?_concat]

theorem archive_name_ne (t : String) :
    _archive_name_for_target t ≠ "codex" ∧ _archive_name_for_target t ≠ "codex.exe" := by
  unfold _archive_name_for_target
  have e1 : ("codex-" : String).length = 6 := rfl
  have e2 : (".zst" : String).length = 4 := rfl
  have e3 : (".exe.zst" : String).length = 8 := rfl
  have e4 : ("codex" : String).length = 5 := rfl
  have e5 : ("codex.exe" : String).length = 9 := rfl
  cases hw : containsWindows t <;>
    simp only [Bool.false_eq_true, if_false, if_true] <;>
    refine ⟨fun hh => ?_, fun hh => ?_⟩ <;>
    · have h2 := congrArg String.length hh
      simp only [String.length_append, e1, e2, e3, e4, e5] at h2
      omega

/-- Forward run of the codex single-target installer: a well-formed
staged zst artifact makes the install succeed even when a file already
exists at the destination, and afterwards the destination holds the newly
decompressed bytes. -/
theorem codex_install_overwrites (st : St) (art v : FPath) (t : String)
    (data : List Nat) (md : Option Nat) (old : File)
    (harch : alookup st.fs.files (art ++ [t, _archive_name_for_target t]) =
      some ⟨Content.zst data true, md⟩)
    (hold : alookup st.fs.files (v ++ [t, "codex",
      if containsWindows t then "codex.exe" else "codex"]) = some old) :
    (_install_single_codex_binary st art v t).1 = Except.ok (v ++ [t, "codex",
      if containsWindows t then "codex.exe" else "codex"]) ∧
    ∃ m, alookup (_install_single_codex_binary st art v t).2.fs.files
        (v ++ [t, "codex", if containsWindows t then "codex.exe" else "codex"]) =
      some ⟨Content.bytes data, m⟩ := by
  rcases hE : _install_single_codex_binary st art v t with ⟨r, stF⟩
  unfold _install_single_codex_binary at hE
  cases hw : containsWindows t <;>
    simp only [hw, Bool.false_eq_true, eq_self_iff_true, if_true, if_false] at hold ⊢ <;>
    dsimp only at hE <;>
    simp only [hw, Bool.false_eq_true, eq_self_iff_true, if_true, if_false,
      mkdirP_files] at hE
  · have hne : v ++ [t, "codex"] ++ ["codex"] ≠ art ++ [t, _archive_name_for_target t] := by
      intro hh
      have h2 := congrArg List.getLast? hh
      rw [getLast?_concat2, List.getLast?_concat] at h2
      injection h2 with h3
      exact (archive_name_ne t).1 (h3.symm)
    have harch2 : alookup (adel st.fs.files (v ++ [t, "codex"] ++ ["codex"]))
        (art ++ [t, _archive_name_for_target t]) = some ⟨Content.zst data true, md⟩ := by
      rw [alookup_adel_ne _ _ _ hne]
      exact harch
    have hex := extract_zst_ok_of_archive
      ⟨(FS.mkdirP st.fs (v ++ [t, "codex"])).dirs,
        adel st.fs.files (v ++ [t, "codex"] ++ ["codex"])⟩
      (art ++ [t, _archive_name_for_target t])
      (v ++ [t, "codex"] ++ ["codex"]) none data md harch2
    rw [harch] at hE
    simp only [Option.isNone_some, Bool.false_eq_true, if_false] at hE
    split at hE
    next e fsE heqE =>
      rw [heqE] at hex
      exact absurd hex.1 (by simp)
    next a fsO heqE =>
      rw [heqE] at hex
      split at hE
      next files2 heqC =>
        injection hE with hA hB
        rw [chmodFiles_of_found _ _ _ _ hex.2] at heqC
        injection heqC with hC
        constructor
        · rw [← hA]
          simp
        · refine ⟨some 0o755, ?_⟩
          rw [← hB]
          rw [← hC]
          have h4 : v ++ [t, "codex", "codex"] = v ++ [t, "codex"] ++ ["codex"] := by simp
          rw [h4]
          simp [alookup_aset_self]
      next heqC =>
        rw [chmodFiles_of_found _ _ _ _ hex.2] at heqC
        exact Option.noConfusion heqC
  · have hne : v ++ [t, "codex"] ++ ["codex.exe"] ≠
        art ++ [t, _archive_name_for_target t] := by
      intro hh
      have h2 := congrArg List.getLast? hh
      rw [getLast?_concat2, List.getLast?_concat] at h2
      injection h2 with h3
      exact (archive_name_ne t).2 (h3.symm)
    have harch2 : alookup (adel st.fs.files (v ++ [t, "codex"] ++ ["codex.exe"]))
        (art ++ [t, _archive_name_for_target t]) = some ⟨Content.zst data true, md⟩ := by
      rw [alookup_adel_ne _ _ _ hne]
      exact harch
    have hex := extract_zst_ok_of_archive
      ⟨(FS.mkdirP st.fs (v ++ [t, "codex"])).dirs,
        adel st.fs.files (v ++ [t, "codex"] ++ ["codex.exe"])⟩
      (art ++ [t, _archive_name_for_target t])
      (v ++ [t, "codex"] ++ ["codex.exe"]) none data md harch2
    rw [harch] at hE
    simp only [Option.isNone_some, Bool.false_eq_true, if_false] at hE
    split at hE
    next e fsE heqE =>
      rw [heqE] at hex
      exact absurd hex.1 (by simp)
    next a fsO heqE =>
      rw [heqE] at hex
      injection hE with hA hB
      constructor
      · rw [← hA]
        simp
      · refine ⟨modeAt (adel st.fs.files (v ++ [t, "codex"] ++ ["codex.exe"]))
          ((art ++ [t, _archive_name_for_target t]).dropLast ++
            [lastComp (v ++ [t, "codex"] ++ ["codex.exe"])]), ?_⟩
        rw [← hB]
        have h4 : v ++ [t, "codex", "codex.exe"] = v ++ [t, "codex"] ++ ["codex.exe"] := by
          simp
        rw [h4]
        exact hex.2

/-- Forward run of the rg single-target installer with a zst-format
manifest entry: a served well-formed archive makes the fetch succeed even
when a file already exists at the destination, and afterwards the
destination holds the newly decompressed bytes. -/
theorem rg_install_overwrites (st : St) (net : Net) (v : FPath) (t pk : String)
    (info : PlatformInfo) (tmp : FPath) (prov : Provider) (ptail : List Provider)
    (data : List Nat) (old : File)
    (hprov : info.providers = prov :: ptail)
    (hfmt : info.format.getD "zst" = "zst")
    (hnet : alookup net prov.url = some (Content.zst data true))
    (hout : pathLeads tmp (v ++ [t, "path"] ++
      [if strStarts pk "win" then "rg.exe" else "rg"]) = false)
    (hold : alookup st.fs.files (v ++ [t, "path",
      if strStarts pk "win" then "rg.exe" else "rg"]) = some old) :
    (_fetch_single_rg st net v t pk info tmp).1 = Except.ok (v ++ [t, "path",
      if strStarts pk "win" then "rg.exe" else "rg"]) ∧
    ∃ m, alookup (_fetch_single_rg st net v t pk info tmp).2.fs.files
        (v ++ [t, "path", if strStarts pk "win" then "rg.exe" else "rg"]) =
      some ⟨Content.bytes data, m⟩ := by
  rcases hE : _fetch_single_rg st net v t pk info tmp with ⟨r, stF⟩
  unfold _fetch_single_rg at hE
  cases hw : strStarts pk "win" <;>
    simp only [hw, Bool.false_eq_true, eq_self_iff_true, if_true, if_false]
      at hE hout hold ⊢ <;>
    simp only [hprov] at hE <;>
    unfold _download_file at hE <;>
    simp only [hnet] at hE <;>
    (try dsimp only at hE) <;>
    simp only [mkdirP_files, hfmt] at hE
  · -- non-windows
    have hdp : pathLeads tmp (tmp ++ [urlBasename prov.url]) = true :=
      pathLeads_append tmp [urlBasename prov.url]
    have hnd : tmp ++ [urlBasename prov.url] ≠ v ++ [t, "path"] ++ ["rg"] :=
      pathLeads_ne tmp _ _ hdp hout
    have hap2 : alookup (adel (setContent st.fs.files (tmp ++ [urlBasename prov.url])
        (Content.zst data true)) (v ++ [t, "path"] ++ ["rg"]))
        (tmp ++ [urlBasename prov.url]) =
        some ⟨Content.zst data true,
          modeAt st.fs.files (tmp ++ [urlBasename prov.url])⟩ := by
      rw [alookup_adel_ne _ _ _ (Ne.symm hnd)]
      exact setContent_self_modeAt _ _ _
    have hex := extract_zst_ok_of_archive
      ⟨((st.fs.mkdirP (v ++ [t, "path"])).mkdirP
          (List.dropLast (tmp ++ [urlBasename prov.url]))).dirs,
        adel (setContent st.fs.files (tmp ++ [urlBasename prov.url])
          (Content.zst data true)) (v ++ [t, "path"] ++ ["rg"])⟩
      (tmp ++ [urlBasename prov.url]) (v ++ [t, "path"] ++ ["rg"]) info.path
      data (modeAt st.fs.files (tmp ++ [urlBasename prov.url])) hap2
    split at hE
    next e fsE heqE =>
      rw [heqE] at hex
      exact absurd hex.1 (by simp)
    next a fsO heqE =>
      rw [heqE] at hex
      have hdata : ∃ mm, alookup fsO.files (v ++ [t, "path"] ++ ["rg"]) =
          some ⟨Content.bytes data, mm⟩ := ⟨_, hex.2⟩
      obtain ⟨mm, hdata⟩ := hdata
      split at hE
      next files2 heqC =>
        obtain ⟨f, hf1, hf2⟩ := chmodFiles_some_lookup _ _ _ _ heqC
        rw [cleanupTmp_lookup _ _ _ hout] at hf1
        have hf1b : alookup fsO.files (v ++ [t, "path"] ++ ["rg"]) = some f := hf1
        rw [hdata] at hf1b
        injection hf1b with hf3
        subst hf3
        injection hE with hA hB
        constructor
        · rw [← hA]
          simp
        · refine ⟨some 0o755, ?_⟩
          rw [← hB]
          have h4 : v ++ [t, "path", "rg"] = v ++ [t, "path"] ++ ["rg"] := by simp
          rw [h4]
          exact hf2
      next heqC =>
        have hfound : alookup (cleanupTmp
            (⟨fsO, st.downloads ++ [prov.url], st.poolSizes⟩ : St) tmp).fs.files
            (v ++ [t, "path"] ++ ["rg"]) = some ⟨Content.bytes data, mm⟩ := by
          rw [cleanupTmp_lookup _ _ _ hout]
          exact hdata
        rw [chmodFiles_of_found _ _ _ _ hfound] at heqC
        exact Option.noConfusion heqC
  · -- windows
    have hdp : pathLeads tmp (tmp ++ [urlBasename prov.url]) = true :=
      pathLeads_append tmp [urlBasename prov.url]
    have hnd : tmp ++ [urlBasename prov.url] ≠ v ++ [t, "path"] ++ ["rg.exe"] :=
      pathLeads_ne tmp _ _ hdp hout
    have hap2 : alookup (adel (setContent st.fs.files (tmp ++ [urlBasename prov.url])
        (Content.zst data true)) (v ++ [t, "path"] ++ ["rg.exe"]))
        (tmp ++ [urlBasename prov.url]) =
        some ⟨Content.zst data true,
          modeAt st.fs.files (tmp ++ [urlBasename prov.url])⟩ := by
      rw [alookup_adel_ne _ _ _ (Ne.symm hnd)]
      exact setContent_self_modeAt _ _ _
    have hex := extract_zst_ok_of_archive
      ⟨((st.fs.mkdirP (v ++ [t, "path"])).mkdirP
          (List.dropLast (tmp ++ [urlBasename prov.url]))).dirs,
        adel (setContent st.fs.files (tmp ++ [urlBasename prov.url])
          (Content.zst data true)) (v ++ [t, "path"] ++ ["rg.exe"])⟩
      (tmp ++ [urlBasename prov.url]) (v ++ [t, "path"] ++ ["rg.exe"]) info.path
      data (modeAt st.fs.files (tmp ++ [urlBasename prov.url])) hap2
    split at hE
    next e fsE heqE =>
      rw [heqE] at hex
      exact absurd hex.1 (by simp)
    next a fsO heqE =>
      rw [heqE] at hex
      have hdata : ∃ mm, alookup fsO.files (v ++ [t, "path"] ++ ["rg.exe"]) =
          some ⟨Content.bytes data, mm⟩ := ⟨_, hex.2⟩
      obtain ⟨mm, hdata⟩ := hdata
      injection hE with hA hB
      constructor
      · rw [← hA]
        simp
      · refine ⟨mm, ?_⟩
        rw [← hB]
        have h4 : v ++ [t, "path", "rg.exe"] = v ++ [t, "path"] ++ ["rg.exe"] := by simp
        rw [h4]
        rw [cleanupTmp_lookup _ _ _ hout]
        exact hdata

/-- Claim C9: when a file already exists at a target's destination,
re-running the single-target install succeeds — there is no
already-exists failure anywhere in either installer — and the
destination afterwards holds the freshly extracted content, because both
installers unlink the destination and rewrite it.  Stated for the codex
installer with any staged zst artifact and for the rg installer with any
zst-format manifest entry served by the network. -/
theorem C9_overwrite_idempotent (st st2 : St) (net : Net) (art v v2 : FPath)
    (t t2 pk : String) (info : PlatformInfo) (tmp : FPath)
    (data data2 : List Nat) (md : Option Nat) (old old2 : File)
    (prov : Provider) (ptail : List Provider)
    (harch : alookup st.fs.files (art ++ [t, _archive_name_for_target t]) =
      some ⟨Content.zst data true, md⟩)
    (hold : alookup st.fs.files (v ++ [t, "codex",
      if containsWindows t then "codex.exe" else "codex"]) = some old)
    (hprov : info.providers = prov :: ptail)
    (hfmt : info.format.getD "zst" = "zst")
    (hnet : alookup net prov.url = some (Content.zst data2 true))
    (hout : pathLeads tmp (v2 ++ [t2, "path"] ++
      [if strStarts pk "win" then "rg.exe" else "rg"]) = false)
    (hold2 : alookup st2.fs.files (v2 ++ [t2, "path",
      if strStarts pk "win" then "rg.exe" else "rg"]) = some old2) :
    ((_install_single_codex_binary st art v t).1 = Except.ok (v ++ [t, "codex",
      if containsWindows t then "codex.exe" else "codex"]) ∧
    ∃ m, alookup (_install_single_codex_binary st art v t).2.fs.files
        (v ++ [t, "codex", if containsWindows t then "codex.exe" else "codex"]) =
      some ⟨Content.bytes data, m⟩) ∧
    ((_fetch_single_rg st2 net v2 t2 pk info tmp).1 = Except.ok (v2 ++ [t2, "path",
      if strStarts pk "win" then "rg.exe" else "rg"]) ∧
    ∃ m, alookup (_fetch_single_rg st2 net v2 t2 pk info tmp).2.fs.files
        (v2 ++ [t2, "path", if strStarts pk "win" then "rg.exe" else "rg"]) =
      some ⟨Content.bytes data2, m⟩) :=
  ⟨codex_install_overwrites st art v t data md old harch hold,
   rg_install_overwrites st2 net v2 t2 pk info tmp prov ptail data2 old2
     hprov hfmt hnet hout hold2⟩

/-- Witness for `C9_overwrite_idempotent`: both destinations hold a
stale binary with a different mode and content; the re-install succeeds
and the new bytes replace the stale ones. -/
theorem C9_witness :
    ((_install_single_codex_binary stC2 ["art"] ["vendor"] tA).1 =
      Except.ok (["vendor"] ++ [tA, "codex",
        if containsWindows tA then "codex.exe" else "codex"]) ∧
    ∃ m, alookup (_install_single_codex_binary stC2 ["art"] ["vendor"] tA).2.fs.files
        (["vendor"] ++ [tA, "codex",
          if containsWindows tA then "codex.exe" else "codex"]) =
      some ⟨Content.bytes [1, 2, 3], m⟩) ∧
    ((_fetch_single_rg stR2 netOne ["vendor"] tA "linux-x86_64"
        ⟨[⟨"http://ok/rg.zst"⟩], none, none⟩ ["tmp", "0"]).1 =
      Except.ok (["vendor"] ++ [tA, "path",
        if strStarts "linux-x86_64" "win" then "rg.exe" else "rg"]) ∧
    ∃ m, alookup (_fetch_single_rg stR2 netOne ["vendor"] tA "linux-x86_64"
        ⟨[⟨"http://ok/rg.zst"⟩], none, none⟩ ["tmp", "0"]).2.fs.files
        (["vendor"] ++ [tA, "path",
          if strStarts "linux-x86_64" "win" then "rg.exe" else "rg"]) =
      some ⟨Content.bytes [1, 2], m⟩) :=
  C9_overwrite_idempotent stC2 stR2 netOne ["art"] ["vendor"] ["vendor"]
    tA tA "linux-x86_64" ⟨[⟨"http://ok/rg.zst"⟩], none, none⟩ ["tmp", "0"]
    [1, 2, 3] [1, 2] none ⟨Content.bytes [42], some 1⟩ ⟨Content.bytes [42], some 1⟩
    ⟨"http://ok/rg.zst"⟩ []
    (by decide) (by decide) (by decide) (by decide) (by decide) (by decide) (by decide)

/-! ### Claim C1: single-target failure handling in the orchestrator -/

/-- Claim C1 as stated is false: over two targets where exactly one
install fails (a provider URL the network does not serve), `fetch_rg`
does not hand the caller the successful target's `InstallDestination`
plus one failure — it raises the failing target's exception, so the
caller receives an error and none of the successful paths. -/
theorem C1_counterexample :
    (fetch_rg stM netOne ["vendor"] (some [tA, tB]) ["manifest"] manBad (some 4)
      [0, 1]).1 = Except.error (Err.downloadError "http://bad/rg.zst") := by
  decide

theorem collectLoop_single_error (outs : List (String × Except Err FPath)) (i : Nat)
    (ti : String) (e : Err)
    (hi : outs.get? i = some (ti, Except.error e))
    (honly : ∀ j tp, outs.get? j = some tp → j ≠ i → ∃ pth, tp.2 = Except.ok pth) :
    ∀ order acc, i ∈ order → collectLoop outs order acc = Except.error e := by
  intro order
  induction order with
  | nil =>
    intro acc h
    exact absurd h (List.not_mem_nil i)
  | cons j rest ih =>
    intro acc hmem
    unfold collectLoop
    by_cases hji : j = i
    · subst hji
      simp only [hi]
    · have hmem2 : i ∈ rest := by
        rcases List.mem_cons.mp hmem with h | h
        · exact absurd h.symm hji
        · exact h
      cases hj : outs.get? j with
      | none =>
        simp only [hj]
        exact ih _ hmem2
      | some tp =>
        obtain ⟨pth, hp⟩ := honly j tp hj hji
        rcases tp with ⟨tj, rj⟩
        simp only at hp
        subst hp
        simp only [hj]
        exact ih _ hmem2

/-- Claim C1 (amended): for every run of either orchestrator
(`fetch_rg` over any state, network, manifest and resolvable nonempty
target list; `install_codex_binaries` over any state, artifact directory
and nonempty target list) in which exactly one submitted per-target task
fails and the rest succeed, and for every completion order in which
`as_completed` yields the failing future, the orchestrator returns that
single failing target's own exception — not a summary enumerating
failures — and no result mapping, so the successful targets' destination
paths are not delivered to the caller; the state it finishes in is
exactly the state after every submitted task has run to completion (the
pool cancels nothing), so the successful siblings' installs take
effect. -/
theorem C1_single_failure_error_after_all_tasks
    (st stB : St) (net : Net) (v mp art vB : FPath)
    (targets targetsB : List String) (man : Manifest) (cpu cpuB : Option Nat)
    (order orderB : List Nat) (cfgs : List (String × String × PlatformInfo))
    (i iB : Nat) (ti tiB : String) (e eB : Err)
    (hman : (alookup st.fs.files mp).isSome = true)
    (hne : targets ≠ [])
    (hres : resolveTargets man.platforms targets = Except.ok cfgs)
    (houts : (runRgTasks net v
        { fs := st.fs.mkdirP v, downloads := st.downloads,
          poolSizes := st.poolSizes ++ [min cfgs.length (max 1 (pyOrOne cpu))] }
        cfgs 0).1.get? i = some (ti, Except.error e))
    (honly : ∀ j tp, (runRgTasks net v
        { fs := st.fs.mkdirP v, downloads := st.downloads,
          poolSizes := st.poolSizes ++ [min cfgs.length (max 1 (pyOrOne cpu))] }
        cfgs 0).1.get? j = some tp → j ≠ i → ∃ pth, tp.2 = Except.ok pth)
    (hmem : i ∈ order)
    (hneB : targetsB ≠ [])
    (houtsB : (runCodexTasks art vB
        { fs := stB.fs, downloads := stB.downloads,
          poolSizes := stB.poolSizes ++ [min targetsB.length (max 1 (pyOrOne cpuB))] }
        targetsB).1.get? iB = some (tiB, Except.error eB))
    (honlyB : ∀ j tp, (runCodexTasks art vB
        { fs := stB.fs, downloads := stB.downloads,
          poolSizes := stB.poolSizes ++ [min targetsB.length (max 1 (pyOrOne cpuB))] }
        targetsB).1.get? j = some tp → j ≠ iB → ∃ pth, tp.2 = Except.ok pth)
    (hmemB : iB ∈ orderB) :
    fetch_rg st net v (some targets) mp man cpu order =
      (Except.error e, (runRgTasks net v
        { fs := st.fs.mkdirP v, downloads := st.downloads,
          poolSizes := st.poolSizes ++ [min cfgs.length (max 1 (pyOrOne cpu))] }
        cfgs 0).2) ∧
    install_codex_binaries stB art vB targetsB cpuB orderB =
      (Except.error eB, (runCodexTasks art vB
        { fs := stB.fs, downloads := stB.downloads,
          poolSizes := stB.poolSizes ++ [min targetsB.length (max 1 (pyOrOne cpuB))] }
        targetsB).2) := by
  constructor
  · unfold fetch_rg
    cases halo : alookup st.fs.files mp with
    | none => rw [halo] at hman; exact absurd hman (by simp)
    | some mf =>
      simp only [halo, Option.getD_some, Option.isNone_some, Bool.false_eq_true,
        if_false, if_neg hne, hres]
      rw [collectLoop_single_error _ i ti e houts honly order [] hmem]
  · unfold install_codex_binaries
    simp only [if_neg hneB]
    rw [collectLoop_single_error _ iB tiB eB houtsB honlyB orderB [] hmemB]

/-- Witness for `C1_single_failure_error_after_all_tasks`: two targets
per orchestrator, the second one failing (unserved provider URL for
`fetch_rg`, missing staged artifact for `install_codex_binaries`). -/
theorem C1_witness :
    fetch_rg stM netOne ["vendor"] (some [tA, tB]) ["manifest"] manBad (some 4)
        [0, 1] =
      (Except.error (Err.downloadError "http://bad/rg.zst"),
       (runRgTasks netOne ["vendor"]
         { fs := stM.fs.mkdirP ["vendor"], downloads := stM.downloads,
           poolSizes := stM.poolSizes ++
             [min ([(tA, "linux-x86_64", (⟨[⟨"http://ok/rg.zst"⟩], none, none⟩ :
                      PlatformInfo)),
                    (tB, "linux-aarch64", ⟨[⟨"http://bad/rg.zst"⟩], none, none⟩)] :
                 List (String × String × PlatformInfo)).length
               (max 1 (pyOrOne (some 4)))] }
         [(tA, "linux-x86_64", ⟨[⟨"http://ok/rg.zst"⟩], none, none⟩),
          (tB, "linux-aarch64", ⟨[⟨"http://bad/rg.zst"⟩], none, none⟩)] 0).2) ∧
    install_codex_binaries stC ["art"] ["vendor"] [tA, tB] (some 4) [0, 1] =
      (Except.error (Err.missingArtifact
          ["art", tB, "codex-aarch64-unknown-linux-musl.zst"]),
       (runCodexTasks ["art"] ["vendor"]
         { fs := stC.fs, downloads := stC.downloads,
           poolSizes := stC.poolSizes ++
             [min ([tA, tB] : List String).length (max 1 (pyOrOne (some 4)))] }
         [tA, tB]).2) :=
  C1_single_failure_error_after_all_tasks stM stC netOne ["vendor"] ["manifest"]
    ["art"] ["vendor"] [tA, tB] [tA, tB] manBad (some 4) (some 4) [0, 1] [0, 1]
    [(tA, "linux-x86_64", ⟨[⟨"http://ok/rg.zst"⟩], none, none⟩),
     (tB, "linux-aarch64", ⟨[⟨"http://bad/rg.zst"⟩], none, none⟩)]
    1 1 tB tB (Err.downloadError "http://bad/rg.zst")
    (Err.missingArtifact ["art", tB, "codex-aarch64-unknown-linux-musl.zst"])
    (by decide) (by decide) (by decide) (by decide)
    (by
      intro j tp hj hji
      rcases j with _ | _ | n
      · refine ⟨["vendor", tA, "path", "rg"], ?_⟩
        rw [show (runRgTasks netOne ["vendor"]
            { fs := stM.fs.mkdirP ["vendor"], downloads := stM.downloads,
              poolSizes := stM.poolSizes ++
                [min ([(tA, "linux-x86_64", (⟨[⟨"http://ok/rg.zst"⟩], none, none⟩ :
                         PlatformInfo)),
                       (tB, "linux-aarch64", ⟨[⟨"http://bad/rg.zst"⟩], none, none⟩)] :
                    List (String × String × PlatformInfo)).length
                  (max 1 (pyOrOne (some 4)))] }
            [(tA, "linux-x86_64", ⟨[⟨"http://ok/rg.zst"⟩], none, none⟩),
             (tB, "linux-aarch64", ⟨[⟨"http://bad/rg.zst"⟩], none, none⟩)] 0).1.get? 0 =
          some (tA, Except.ok ["vendor", tA, "path", "rg"]) from by decide] at hj
        injection hj with h2
        rw [← h2]
      · exact absurd rfl hji
      · rw [List.get?_eq_none.mpr (by
          rw [show (runRgTasks netOne ["vendor"]
              { fs := stM.fs.mkdirP ["vendor"], downloads := stM.downloads,
                poolSizes := stM.poolSizes ++
                  [min ([(tA, "linux-x86_64", (⟨[⟨"http://ok/rg.zst"⟩], none, none⟩ :
                           PlatformInfo)),
                         (tB, "linux-aarch64", ⟨[⟨"http://bad/rg.zst"⟩], none, none⟩)] :
                      List (String × String × PlatformInfo)).length
                    (max 1 (pyOrOne (some 4)))] }
              [(tA, "linux-x86_64", ⟨[⟨"http://ok/rg.zst"⟩], none, none⟩),
               (tB, "linux-aarch64", ⟨[⟨"http://bad/rg.zst"⟩], none, none⟩)] 0).1.length
            = 2 from by decide]
          omega)] at hj
        exact Option.noConfusion hj)
    (by decide) (by decide) (by decide)
    (by
      intro j tp hj hji
      rcases j with _ | _ | n
      · refine ⟨["vendor", tA, "codex", "codex"], ?_⟩
        rw [show (runCodexTasks ["art"] ["vendor"]
            { fs := stC.fs, downloads := stC.downloads,
              poolSizes := stC.poolSizes ++
                [min ([tA, tB] : List String).length (max 1 (pyOrOne (some 4)))] }
            [tA, tB]).1.get? 0 =
          some (tA, Except.ok ["vendor", tA, "codex", "codex"]) from by decide] at hj
        injection hj with h2
        rw [← h2]
      · exact absurd rfl hji
      · rw [List.get?_eq_none.mpr (by
          rw [show (runCodexTasks ["art"] ["vendor"]
              { fs := stC.fs, downloads := stC.downloads,
                poolSizes := stC.poolSizes ++
                  [min ([tA, tB] : List String).length (max 1 (pyOrOne (some 4)))] }
              [tA, tB]).1.length = 2 from by decide]
          omega)] at hj
        exact Option.noConfusion hj)
    (by decide)

end InstallNativeDeps
